import Mathlib

/-!
# Verification of the feature codec (`indexer/feature.cpp`)

A shallow embedding of the binary feature codec: `FeatureBuilder1`
(Stage-1 serialization), `FeatureBuilder2` (Stage-2, multi-scale), and
`FeatureType` (the lazy reader), together with the bit packer
(`BitSink` / `BitSource`) and the numeric encodings they rely on.

Machine integers are modelled as `Nat` / `Int`; coordinates (`double` in
the source) are modelled as `ℚ`; byte buffers are `List Nat`; fallible
or aborting code (`CHECK` / `ASSERT` macros, reads past the end of a
buffer) returns `Option`.

External modules that `feature.cpp` calls but whose sources are not part
of this excerpt (the `serial::` geometry codecs, `MercatorBounds`, the
point/uint64 conversions, the container) are modelled from the
specification; each such definition carries a doc comment saying so.
-/

namespace FeatureCodec

/-! ## Variable-length integers (`WriteVarUint` / `ReadVarUint`)

Modelled from the spec: `var_uint` is standard LEB128 — 7 bits per byte,
most-significant-bit continuation, least-significant group first;
`var_int` is the zig-zag transform followed by `var_uint`. -/

/-- LEB128 encoding of an unsigned integer (`WriteVarUint`). -/
def writeVarUint (n : Nat) : List Nat :=
  if h : n < 128 then [n]
  else (n % 128 + 128) :: writeVarUint (n / 128)
  decreasing_by exact Nat.div_lt_self (by omega) (by omega)

/-- LEB128 decoding (`ReadVarUint`); returns the value and the rest of
the byte stream, or `none` on a truncated buffer. -/
def readVarUint : List Nat → Option (Nat × List Nat)
  | [] => none
  | b :: rest =>
    if b < 128 then some (b, rest)
    else
      match readVarUint rest with
      | none => none
      | some (v, r) => some (b % 128 + 128 * v, r)

/-- Zig-zag transform used by `WriteVarInt`. -/
def zigZag (i : Int) : Nat :=
  if 0 ≤ i then (2 * i).toNat else (-2 * i - 1).toNat

/-- Inverse zig-zag transform used by `ReadVarInt`. -/
def unZigZag (n : Nat) : Int :=
  if n % 2 = 0 then (n / 2 : Nat) else -((n / 2 : Nat) : Int) - 1

/-- `WriteVarInt`: zig-zag then LEB128. -/
def writeVarInt (i : Int) : List Nat := writeVarUint (zigZag i)

/-- `ReadVarInt`. -/
def readVarInt (l : List Nat) : Option (Int × List Nat) :=
  (readVarUint l).map (fun p => (unZigZag p.1, p.2))

/-! ## Morton interleave (`PointUToUint64` / `Uint64ToPointU`)

Modelled from the spec: the two 32-bit coordinates of a `PointU` are
combined into a single `u64` by interleaving their bits (Morton order);
`x` occupies the even bit positions and `y` the odd ones. -/

/-- Bit interleave of two naturals (Morton code). -/
def interleave (x y : Nat) : Nat :=
  if x = 0 ∧ y = 0 then 0
  else x % 2 + 2 * (y % 2) + 4 * interleave (x / 2) (y / 2)
  termination_by x + y
  decreasing_by
    simp_wf
    omega

/-- Inverse of `interleave`: extracts the even-position and odd-position
bits. -/
def deinterleave (n : Nat) : Nat × Nat :=
  if n = 0 then (0, 0)
  else
    let p := deinterleave (n / 4)
    (n % 2 + 2 * p.1, n / 2 % 2 + 2 * p.2)
  decreasing_by exact Nat.div_lt_self (by omega) (by omega)

/-! ## Coordinate codec (`PointD2PointU` / `PointU2PointD`)

Modelled from the spec: quantization maps `(x,y) ∈ [-B,B]²` to the grid
`[0, 2^32 − 1]²` (CELL_BITS = 32); inputs outside the projected bound
are clamped; the absolute epsilon for equality
(`MercatorBounds::GetCellID2PointAbsEpsilon`) is one quantization cell
`2·B / 2^32`.  Dequantization returns the centre of the cell, so a
round trip moves a coordinate by at most half a cell. -/

/-- A projected point (`m2::PointD`, coordinates idealized as `ℚ`). -/
structure PointD where
  x : ℚ
  y : ℚ
  deriving DecidableEq, Inhabited

/-- A quantized grid point (`m2::PointU`). -/
structure PointU where
  x : Nat
  y : Nat
  deriving DecidableEq, Inhabited

namespace MercatorBounds

/-- The projected bound `B` (Mercator extent). -/
def bound : ℚ := 180

/-- Size of one quantization cell. -/
def cellSize : ℚ := 2 * bound / 2 ^ 32

/-- `MercatorBounds::GetCellID2PointAbsEpsilon`: one quantization cell. -/
def GetCellID2PointAbsEpsilon : ℚ := cellSize

end MercatorBounds

/-- Quantize one axis: clamp to `[-B, B]` and map to `[0, 2^32 - 1]`. -/
def quantAxis (x : ℚ) : Nat :=
  min (Int.toNat ⌊(x + MercatorBounds.bound) / MercatorBounds.cellSize⌋) (2 ^ 32 - 1)

/-- Dequantize one axis to the centre of cell `u`. -/
def dequantAxis (u : Nat) : ℚ :=
  u * MercatorBounds.cellSize - MercatorBounds.bound + MercatorBounds.cellSize / 2

/-- `PointD2PointU`. -/
def PointD2PointU (p : PointD) : PointU := ⟨quantAxis p.x, quantAxis p.y⟩

/-- `PointU2PointD`. -/
def PointU2PointD (p : PointU) : PointD := ⟨dequantAxis p.x, dequantAxis p.y⟩

/-- `m2::PointUToUint64`: Morton code of a grid point. -/
def pointUToUint64 (p : PointU) : Nat := interleave p.x p.y

/-- `m2::Uint64ToPointU`: inverse Morton code. -/
def uint64ToPointU (n : Nat) : PointU := ⟨(deinterleave n).1, (deinterleave n).2⟩

/-- `EncodeDelta`.  Modelled from the spec: an unsigned delta against the
base point, wrapping modulo `2^32` per axis, re-interleaved. -/
def encodeDelta (p base : PointU) : Nat :=
  interleave ((p.x + 2 ^ 32 - base.x % 2 ^ 32) % 2 ^ 32)
             ((p.y + 2 ^ 32 - base.y % 2 ^ 32) % 2 ^ 32)

/-- `DecodeDelta`: inverse of `encodeDelta`. -/
def decodeDelta (v : Nat) (base : PointU) : PointU :=
  let d := deinterleave v
  ⟨(d.1 + base.x % 2 ^ 32) % 2 ^ 32, (d.2 + base.y % 2 ^ 32) % 2 ^ 32⟩

/-! ## Epsilon equality (the anonymous-namespace `is_equal` helpers) -/

/-- `is_equal(double, double)`: within one quantization cell. -/
def isEqD (a b : ℚ) : Bool :=
  |a - b| < MercatorBounds.GetCellID2PointAbsEpsilon

/-- `is_equal(m2::PointD, m2::PointD)` (via `EqualDxDy`). -/
def isEqPoint (p q : PointD) : Bool := isEqD p.x q.x && isEqD p.y q.y

/-- `is_equal(vector<m2::PointD>, ...)`: same length, pointwise. -/
def isEqPoints (v w : List PointD) : Bool :=
  v.length == w.length && (List.zip v w).all (fun pq => isEqPoint pq.1 pq.2)

/-! ## Rectangles (`m2::RectD`) -/

/-- Sentinel standing for the largest double in `m2::RectD::GetEmptyRect`. -/
def rectInf : ℚ := 2 ^ 100

/-- An axis-aligned rectangle. -/
structure RectD where
  minX : ℚ
  minY : ℚ
  maxX : ℚ
  maxY : ℚ
  deriving DecidableEq, Inhabited

/-- `m2::RectD::GetEmptyRect`. -/
def RectD.emptyRect : RectD := ⟨rectInf, rectInf, -rectInf, -rectInf⟩

/-- `m2::RectD::Add`: extend the rectangle by one point. -/
def RectD.add (r : RectD) (p : PointD) : RectD :=
  ⟨min r.minX p.x, min r.minY p.y, max r.maxX p.x, max r.maxY p.y⟩

/-- The `CalcRect` helper: extend a rectangle by a point container. -/
def calcRect (pts : List PointD) (r : RectD) : RectD := pts.foldl RectD.add r

/-- `is_equal(m2::RectD, m2::RectD)`. -/
def isEqRect (r s : RectD) : Bool :=
  isEqD r.minX s.minX && isEqD r.minY s.minY &&
  isEqD r.maxX s.maxX && isEqD r.maxY s.maxY

/-! ## Bit packer (`BitSink`) and unpacker (`BitSource`) -/

/-- State of `BitSink`: flushed bytes, bit position, current byte. -/
structure BitSinkState where
  bytes : List Nat
  pos : Nat
  current : Nat
  deriving DecidableEq, Inhabited

/-- A fresh `BitSink`. -/
def BitSinkState.init : BitSinkState := ⟨[], 0, 0⟩

/-- `BitSink::Finish`: flush the partial byte, if any. -/
def BitSinkState.finishSink (s : BitSinkState) : BitSinkState :=
  if 0 < s.pos then ⟨s.bytes ++ [s.current], 0, 0⟩ else s

/-- `BitSink::Write`: append `count` bits; a field that would cross the
byte boundary flushes the current byte first. -/
def BitSinkState.write (s : BitSinkState) (value count : Nat) : BitSinkState :=
  let s' := if 8 < s.pos + count then s.finishSink else s
  ⟨s'.bytes, s'.pos + count, s'.current ||| (value <<< s'.pos)⟩

/-- State of `BitSource`: remaining bytes and bit position in the head. -/
structure BitSourceState where
  bytes : List Nat
  pos : Nat
  deriving DecidableEq, Inhabited

/-- `BitSource::Read`: extract `count` bits from the current byte at the
current position (zero-extended past the byte's end); advance to the
next byte when the position reaches or passes 8. -/
def BitSourceState.read (s : BitSourceState) (count : Nat) : Nat × BitSourceState :=
  let v := (s.bytes.headD 0 >>> s.pos) &&& ((1 <<< count) - 1)
  let p := s.pos + count
  if 8 ≤ p then (v, ⟨s.bytes.tail, 0⟩) else (v, ⟨s.bytes, p⟩)

/-- `BitSource::RoundPtr`: advance to the next byte boundary, returning
the remaining byte stream. -/
def BitSourceState.roundPtr (s : BitSourceState) : List Nat :=
  if 0 < s.pos then s.bytes.tail else s.bytes

/-- Write a list of `(value, bit_count)` fields through a `BitSink` and
finish. -/
def writeFields (fields : List (Nat × Nat)) : List Nat :=
  ((fields.foldl (fun s f => s.write f.1 f.2) BitSinkState.init).finishSink).bytes

/-- Read fields of the given bit counts through a `BitSource`. -/
def readFieldsAux : BitSourceState → List Nat → List Nat
  | _, [] => []
  | s, c :: cs =>
    let r := s.read c
    r.1 :: readFieldsAux r.2 cs

/-- Read a list of fields, by bit count, from a byte stream. -/
def readFields (bytes : List Nat) (counts : List Nat) : List Nat :=
  readFieldsAux ⟨bytes, 0⟩ counts

/-- Bytes produced by a `BitSink` fed 4-bit fields: two fields per byte,
a trailing odd field in its own byte. -/
def pack4 : List Nat → List Nat
  | [] => []
  | [v] => [v]
  | v0 :: v1 :: rest => (v0 ||| (v1 <<< 4)) :: pack4 rest

/-! ## Sorting and set difference (for `AssignType_SetDifference`) -/

/-- Ascending comparison sort (`sort(src.begin(), src.end())`). -/
def sortTypes (l : List Nat) : List Nat := List.insertionSort (· ≤ ·) l

/-- `std::set_difference` on two ascending ranges (multiset semantics:
an element occurring `m` times in the first range and `n` times in the
second survives `max(m-n, 0)` times). -/
def setDifference : List Nat → List Nat → List Nat
  | [], _ => []
  | x :: xs, [] => x :: xs
  | x :: xs, y :: ys =>
    if x < y then x :: setDifference xs (y :: ys)
    else if y < x then setDifference (x :: xs) ys
    else setDifference xs ys
  termination_by l₁ l₂ => l₁.length + l₂.length

/-! ## Region containment

Modelled from the spec: `m2::Region<m2::PointD>::Contains` — the test
whether a point lies inside the polygon built from the outer geometry
(`feature.cpp` only calls it; the implementation lives in
`geometry/region2d.hpp`, outside this excerpt).  Modelled as the
standard even–odd ray-casting point-in-polygon test. -/

/-- Does the edge `(a, b)` cross the horizontal ray from `p` to `+∞`? -/
def edgeCrossesRay (a b p : PointD) : Bool :=
  (decide (p.y < a.y) != decide (p.y < b.y)) &&
  decide (p.x < a.x + (p.y - a.y) * (b.x - a.x) / (b.y - a.y))

/-- Even–odd point-in-polygon test over the ring's edges (consecutive
pairs plus the closing edge). -/
def regionContains (ring : List PointD) (pt : PointD) : Bool :=
  (ring.zip (ring.rotate 1)).foldl
    (fun acc e => if edgeCrossesRay e.1 e.2 pt then !acc else acc) false

/-! ## `FeatureBuilder1` -/

/-- `FeatureBase::HEADER_HAS_NAME`. -/
def HEADER_HAS_NAME : Nat := 8
/-- `FeatureBase::HEADER_HAS_LAYER`. -/
def HEADER_HAS_LAYER : Nat := 16
/-- `FeatureBase::HEADER_HAS_POINT`. -/
def HEADER_HAS_POINT : Nat := 32
/-- `FeatureBase::HEADER_IS_LINE`. -/
def HEADER_IS_LINE : Nat := 64
/-- `FeatureBase::HEADER_IS_AREA`. -/
def HEADER_IS_AREA : Nat := 128

/-- `FeatureBuilder1::m_maxTypesCount`.  Modelled from the spec: the
maximum type count is 7 (it must fit the 3 low header bits). -/
def maxTypesCount : Nat := 7

/-- The accumulating feature builder (`FeatureBuilder1`).  The name is a
byte string (`List Nat`). -/
structure FeatureBuilder1 where
  m_Types : List Nat
  m_Layer : Int
  m_Name : List Nat
  m_bPoint : Bool
  m_bLinear : Bool
  m_bArea : Bool
  m_Center : PointD
  m_Geometry : List PointD
  m_Holes : List (List PointD)
  m_LimitRect : RectD
  deriving Inhabited

namespace FeatureBuilder1

/-- The default-constructed builder. -/
def mkEmpty : FeatureBuilder1 :=
  ⟨[], 0, [], false, false, false, default, [], [], RectD.emptyRect⟩

/-- `FeatureBuilder1::SetCenter`. -/
def SetCenter (b : FeatureBuilder1) (p : PointD) : FeatureBuilder1 :=
  { b with m_Center := p, m_bPoint := true, m_LimitRect := b.m_LimitRect.add p }

/-- `FeatureBuilder1::AddPoint`. -/
def AddPoint (b : FeatureBuilder1) (p : PointD) : FeatureBuilder1 :=
  { b with m_Geometry := b.m_Geometry ++ [p], m_LimitRect := b.m_LimitRect.add p }

/-- `FeatureBuilder1::SetLinear` (declared in the header). -/
def SetLinear (b : FeatureBuilder1) : FeatureBuilder1 := { b with m_bLinear := true }

/-- `FeatureBuilder1::SetAreaAddHoles`: set the area flag, clear the
holes, and retain exactly the candidate holes whose first vertex the
region built from the outer geometry contains. -/
def SetAreaAddHoles (b : FeatureBuilder1) (holes : List (List PointD)) : FeatureBuilder1 :=
  let b' := { b with m_bArea := true, m_Holes := ([] : List (List PointD)) }
  if holes.isEmpty then b'
  else { b' with
         m_Holes := holes.filter (fun h => regionContains b.m_Geometry (h.headD default)) }

/-- `FeatureBuilder1::AddName`. -/
def AddName (b : FeatureBuilder1) (name : List Nat) : FeatureBuilder1 :=
  { b with m_Name := name }

/-- `FeatureBuilder1::IsTypeExist`. -/
def IsTypeExist (b : FeatureBuilder1) (t : Nat) : Bool := b.m_Types.contains t

/-- `FeatureBuilder1::AssignType_SetDifference`: sort the current types,
replace them by the `set_difference` with the removal list, and report
whether any type remains. -/
def AssignType_SetDifference (b : FeatureBuilder1) (diffTypes : List Nat) :
    FeatureBuilder1 × Bool :=
  let src := sortTypes b.m_Types
  let t := setDifference src diffTypes
  ({ b with m_Types := t }, !t.isEmpty)

/-- `FeatureBuilder1::AddLayer`: clamp to `[-10, 10]`. -/
def AddLayer (b : FeatureBuilder1) (layer : Int) : FeatureBuilder1 :=
  let l := if layer < -10 then (-10 : Int) else if 10 < layer then 10 else layer
  { b with m_Layer := l }

/-- `FeatureBuilder1::AddTypes` (declared in the header): append types. -/
def AddTypes (b : FeatureBuilder1) (ts : List Nat) : FeatureBuilder1 :=
  { b with m_Types := b.m_Types ++ ts }

/-- `FeatureBuilder1::CheckValid`. -/
def CheckValid (b : FeatureBuilder1) : Bool :=
  !b.m_Types.isEmpty && b.m_Types.length ≤ maxTypesCount &&
  decide (-10 ≤ b.m_Layer) && decide (b.m_Layer ≤ 10) &&
  (b.m_bPoint || b.m_bLinear || b.m_bArea) &&
  (!b.m_bLinear || 2 ≤ b.m_Geometry.length) &&
  (!b.m_bArea || 3 ≤ b.m_Geometry.length) &&
  (b.m_Holes.isEmpty || b.m_bArea) &&
  b.m_Holes.all (fun h => 3 ≤ h.length)

/-- `FeatureBuilder1::GetHeader`. -/
def GetHeader (b : FeatureBuilder1) : Nat :=
  let h0 := b.m_Types.length
  let h1 := if !b.m_Name.isEmpty then h0 ||| HEADER_HAS_NAME else h0
  let h2 := if b.m_Layer ≠ 0 then h1 ||| HEADER_HAS_LAYER else h1
  let h3 := if b.m_bPoint then h2 ||| HEADER_HAS_POINT else h2
  let h4 := if b.m_bLinear then h3 ||| HEADER_IS_LINE else h3
  let h5 := if b.m_bArea then h4 ||| HEADER_IS_AREA else h4
  h5

end FeatureBuilder1

/-! ## Outer-path codec

Modelled from the spec: `serial::SaveOuterPath` / `serial::LoadOuterPath`
— "a varint-delta polyline representation shared with the container's
geometry streams", an external interface contract (`geometry_serialization`)
whose source is outside this excerpt.  Model: the point count as
`var_uint`, the first point's Morton code as `var_uint`, then each
subsequent point as the zig-zag `var_int` of the difference between
consecutive Morton codes. -/

/-- Delta-encode a chain of Morton codes. -/
def saveDeltas (prev : Nat) : List Nat → List Nat
  | [] => []
  | u :: rest => writeVarInt ((u : Int) - (prev : Int)) ++ saveDeltas u rest

/-- `serial::SaveOuterPath` at the Morton-code level. -/
def saveOuterPathU (us : List Nat) : List Nat :=
  writeVarUint us.length ++
  match us with
  | [] => []
  | u0 :: rest => writeVarUint u0 ++ saveDeltas u0 rest

/-- `serial::SaveOuterPath` on projected points: quantize, then encode. -/
def saveOuterPath (pts : List PointD) : List Nat :=
  saveOuterPathU (pts.map (fun p => pointUToUint64 (PointD2PointU p)))

/-- Decode `n` delta-encoded Morton codes. -/
def loadDeltas (prev : Nat) : Nat → List Nat → Option (List Nat × List Nat)
  | 0, l => some ([], l)
  | n + 1, l =>
    match readVarInt l with
    | none => none
    | some (d, r) =>
      let u := ((prev : Int) + d).toNat
      (loadDeltas u n r).map (fun p => (u :: p.1, p.2))

/-- `serial::LoadOuterPath` at the Morton-code level. -/
def loadOuterPathU (l : List Nat) : Option (List Nat × List Nat) :=
  match readVarUint l with
  | none => none
  | some (0, r) => some ([], r)
  | some (n + 1, r) =>
    match readVarUint r with
    | none => none
    | some (u0, r2) => (loadDeltas u0 n r2).map (fun p => (u0 :: p.1, p.2))

/-- `serial::LoadOuterPath` on projected points. -/
def loadOuterPath (l : List Nat) : Option (List PointD × List Nat) :=
  (loadOuterPathU l).map
    (fun p => (p.1.map (fun u => PointU2PointD (uint64ToPointU u)), p.2))

/-! ## Stage-1 serialization (`FeatureBuilder1::Serialize` /
`FeatureBuilder1::Deserialize`) -/

/-- Read `count` consecutive `var_uint`s. -/
def readVarUints : Nat → List Nat → Option (List Nat × List Nat)
  | 0, l => some ([], l)
  | n + 1, l =>
    match readVarUint l with
    | none => none
    | some (v, r) => (readVarUints n r).map (fun p => (v :: p.1, p.2))

/-- Read `count` hole paths. -/
def readHoles : Nat → List Nat → Option (List (List PointD) × List Nat)
  | 0, l => some ([], l)
  | n + 1, l =>
    match loadOuterPath l with
    | none => none
    | some (h, r) => (readHoles n r).map (fun p => (h :: p.1, p.2))

namespace FeatureBuilder1

/-- `FeatureBuilder1::SerializeBase`: header byte, types, optional
layer, optional name, optional delta-encoded centre. -/
def SerializeBase (b : FeatureBuilder1) (basePoint : PointU) : List Nat :=
  [b.GetHeader] ++
  (b.m_Types.map writeVarUint).flatten ++
  (if b.m_Layer ≠ 0 then writeVarInt b.m_Layer else []) ++
  (if !b.m_Name.isEmpty then writeVarUint (b.m_Name.length - 1) ++ b.m_Name else []) ++
  (if b.m_bPoint then writeVarUint (encodeDelta (PointD2PointU b.m_Center) basePoint) else [])

/-- `FeatureBuilder1::Serialize` (Stage-1): the base block against the
origin, the outer geometry for line or area features, and the hole
count followed by the hole paths for area features.  (The source
`CHECK`s `CheckValid()` on entry; validity is a precondition of the
round-trip theorem.) -/
def Serialize (b : FeatureBuilder1) : List Nat :=
  b.SerializeBase ⟨0, 0⟩ ++
  (if b.m_bLinear || b.m_bArea then saveOuterPath b.m_Geometry else []) ++
  (if b.m_bArea then
     writeVarUint b.m_Holes.length ++ (b.m_Holes.map saveOuterPath).flatten
   else [])

/-- The optional layer read of `FeatureBase::Deserialize`. -/
def readLayerStage (h : Nat) (l : List Nat) : Option (Int × List Nat) :=
  if h &&& HEADER_HAS_LAYER ≠ 0 then readVarInt l else some (0, l)

/-- The optional name read of `FeatureBase::Deserialize` (the stored
length is `name.size() - 1`). -/
def readNameStage (h : Nat) (l : List Nat) : Option (List Nat × List Nat) :=
  if h &&& HEADER_HAS_NAME ≠ 0 then
    match readVarUint l with
    | none => none
    | some (n, r) =>
      if n + 1 ≤ r.length then some (r.take (n + 1), r.drop (n + 1)) else none
  else some ([], l)

/-- The optional centre read of `FeatureBase::Deserialize`. -/
def readCenterStage (h : Nat) (l : List Nat) : Option (Option PointD × List Nat) :=
  if h &&& HEADER_HAS_POINT ≠ 0 then
    match readVarUint l with
    | none => none
    | some (v, r) => some (some (PointU2PointD (decodeDelta v ⟨0, 0⟩)), r)
  else some (none, l)

/-- The outer-geometry read of `FeatureBuilder1::Deserialize`. -/
def readGeomStage (h : Nat) (l : List Nat) : Option (List PointD × List Nat) :=
  if h &&& HEADER_IS_LINE ≠ 0 ∨ h &&& HEADER_IS_AREA ≠ 0 then loadOuterPath l
  else some ([], l)

/-- The hole read of `FeatureBuilder1::Deserialize`. -/
def readHolesStage (h : Nat) (l : List Nat) : Option (List (List PointD) × List Nat) :=
  if h &&& HEADER_IS_AREA ≠ 0 then
    match readVarUint l with
    | none => none
    | some (cnt, r) => readHoles cnt r
  else some ([], l)

/-- `FeatureBuilder1::Deserialize` into a fresh builder: the
`FeatureBase` parse stages (types, common) followed by
`InitFeatureBuilder` and the geometry/hole reads; `none` models a
truncated buffer or a final `CheckValid` failure. -/
def Deserialize (buf : List Nat) : Option FeatureBuilder1 :=
  match buf with
  | [] => none
  | h :: r0 =>
    match readVarUints (h &&& 7) r0 with
    | none => none
    | some (types, r1) =>
      match readLayerStage h r1 with
      | none => none
      | some (layer, r2) =>
        match readNameStage h r2 with
        | none => none
        | some (name, r4) =>
          match readCenterStage h r4 with
          | none => none
          | some (centerOpt, r6) =>
            let b0 : FeatureBuilder1 :=
              ⟨types, 0, [], false, false, false, default, [], [], RectD.emptyRect⟩
            let b1 := b0.AddLayer layer
            let b2 := b1.AddName name
            let b3 := match centerOpt with
                      | some c => b2.SetCenter c
                      | none => b2
            let b4 := if h &&& HEADER_IS_LINE ≠ 0 then b3.SetLinear else b3
            let b5 := if h &&& HEADER_IS_AREA ≠ 0 then b4.SetAreaAddHoles [] else b4
            match readGeomStage h r6 with
            | none => none
            | some (geom, r7) =>
              let b6 := { b5 with m_Geometry := geom,
                                  m_LimitRect := calcRect geom b5.m_LimitRect }
              match readHolesStage h r7 with
              | none => none
              | some (holes, _) =>
                let b7 := { b6 with m_Holes := holes }
                if b7.CheckValid then some b7 else none

/-- `FeatureBuilder1::operator==`: structural equality, with the
one-quantization-cell epsilon on the centre, the limit rectangle, the
geometry and the holes. -/
def beqFB (a b : FeatureBuilder1) : Bool :=
  a.m_Types == b.m_Types && a.m_Layer == b.m_Layer && a.m_Name == b.m_Name &&
  a.m_bPoint == b.m_bPoint && a.m_bLinear == b.m_bLinear && a.m_bArea == b.m_bArea &&
  (!a.m_bPoint || isEqPoint a.m_Center b.m_Center) &&
  isEqRect a.m_LimitRect b.m_LimitRect &&
  isEqPoints a.m_Geometry b.m_Geometry &&
  a.m_Holes.length == b.m_Holes.length &&
  (List.zip a.m_Holes b.m_Holes).all (fun hh => isEqPoints hh.1 hh.2)

end FeatureBuilder1

/-! ## Stage-2 serialization (`FeatureBuilder2`) -/

/-- `serial::WriteVarUintArray`.  Modelled from the spec: each element
is written as a `var_uint`; the element count is not written — on the
reader's side it is implied by the mask bits (`ReadOffsets` reads one
offset per set mask bit and no count). -/
def writeVarUintArray (vs : List Nat) : List Nat := (vs.map writeVarUint).flatten

/-- `serial::SaveInnerPath`.  Modelled from the spec: the inline path is
written as `var_uint` deltas against the base point, one per point; the
point count lives in the bit header, not in the stream. -/
def saveInnerPath (pts : List PointD) (base : Nat) : List Nat :=
  (pts.map (fun p =>
    writeVarUint (encodeDelta (PointD2PointU p) (uint64ToPointU base)))).flatten

/-- `serial::LoadInnerPath`: read `n` delta-encoded points. -/
def loadInnerPath (l : List Nat) (n : Nat) (base : Nat) :
    Option (List PointD × List Nat) :=
  (readVarUints n l).map (fun p =>
    (p.1.map (fun v => PointU2PointD (decodeDelta v (uint64ToPointU base))), p.2))

/-- `serial::SaveInnerTriangles`.  Modelled from the spec: the strip
points are written like an inner path. -/
def saveInnerTriangles (pts : List PointD) (base : Nat) : List Nat :=
  saveInnerPath pts base

/-- `serial::LoadInnerTriangles`: read the `n` strip points. -/
def loadInnerTriangles (l : List Nat) (n : Nat) (base : Nat) :
    Option (List PointD × List Nat) :=
  loadInnerPath l n base

/-- `serial::LoadOuterTriangles`.  Modelled from the spec: the outer
triangle stream uses the shared outer codec. -/
def loadOuterTriangles (l : List Nat) : Option (List PointD × List Nat) :=
  loadOuterPath l

/-- The simplifier's output record (`FeatureBuilder2::buffers_holder_t`). -/
structure BuffersHolder where
  m_innerPts : List PointD
  m_innerTrg : List PointD
  m_ptsMask : Nat
  m_trgMask : Nat
  m_ptsSimpMask : Nat
  m_ptsOffset : List Nat
  m_trgOffset : List Nat
  deriving Inhabited

/-- The bytes of `m_ptsSimpMask`, least-significant byte first
(the Stage-2 writer's shift loop). -/
def simpMaskBytes (v : Nat) : Nat → List Nat
  | 0 => []
  | n + 1 => (v % 256) :: simpMaskBytes (v / 256) n

namespace FeatureBuilder2

/-- `FeatureBuilder2::PreSerialize`: drop the line/area flag when the
corresponding inline block and mask are both empty. -/
def PreSerialize (b : FeatureBuilder1) (data : BuffersHolder) : FeatureBuilder1 :=
  let b1 := if data.m_ptsMask = 0 && data.m_innerPts.isEmpty then
              { b with m_bLinear := false } else b
  let b2 := if data.m_trgMask = 0 && data.m_innerTrg.isEmpty then
              { b1 with m_bArea := false } else b1
  b2

/-- `FeatureBuilder2::Serialize`: base block against the Stage-2 base
point, the packed bit header, then per flavour either the inline
geometry (with the simplification-mask bytes) or the **reversed**
offsets array. -/
def Serialize (b : FeatureBuilder1) (data : BuffersHolder) (base : Nat) : List Nat :=
  let baseBytes := b.SerializeBase (uint64ToPointU base)
  let ptsCount := data.m_innerPts.length % 256
  let trgCount0 := data.m_innerTrg.length % 256
  let trgCount := if 0 < trgCount0 then trgCount0 - 2 else trgCount0
  let s1 := if b.m_bLinear then
              (let sa := BitSinkState.init.write ptsCount 4
               if ptsCount = 0 then sa.write data.m_ptsMask 4 else sa)
            else BitSinkState.init
  let s2 := if b.m_bArea then
              (let sa := s1.write trgCount 4
               if trgCount = 0 then sa.write data.m_trgMask 4 else sa)
            else s1
  let bitBytes := s2.finishSink.bytes
  let lineBytes :=
    if b.m_bLinear then
      if 0 < ptsCount then
        (if 2 < ptsCount then simpMaskBytes data.m_ptsSimpMask ((ptsCount - 2 + 3) / 4)
         else []) ++
        saveInnerPath data.m_innerPts base
      else writeVarUintArray data.m_ptsOffset.reverse
    else []
  let areaBytes :=
    if b.m_bArea then
      if 0 < trgCount then saveInnerTriangles data.m_innerTrg base
      else writeVarUintArray data.m_trgOffset.reverse
    else []
  baseBytes ++ bitBytes ++ lineBytes ++ areaBytes

end FeatureBuilder2

/-! ## The reader (`FeatureType`) -/

/-- The shared scale header (`m_header`): ascending zoom breakpoints and
the Stage-2 base point as `u64`. -/
structure FeatureHeader where
  scales : List Int
  base : Nat
  deriving Inhabited

/-- `GetScalesCount`. -/
def FeatureHeader.GetScalesCount (h : FeatureHeader) : Nat := h.scales.length

/-- `GetScale(i)`. -/
def FeatureHeader.GetScale (h : FeatureHeader) (i : Nat) : Int := h.scales.getD i 0

/-- `kInvalidOffset = uint32_t(-1)`. -/
def kInvalidOffset : Nat := 2 ^ 32 - 1

/-- `GEOMETRY_FILE_TAG` (an opaque container stream tag). -/
def GEOMETRY_FILE_TAG : Nat := 0
/-- `TRIANGLE_FILE_TAG` (an opaque container stream tag). -/
def TRIANGLE_FILE_TAG : Nat := 1

/-- A C-style `int` → `uint32_t` cast. -/
def intToUInt32 (i : Int) : Nat := (i % (2 ^ 32 : Int)).toNat

/-- The loop of `GetScaleIndex(int)`: index of the first scale
breakpoint at or above the requested scale, `-1` when there is none. -/
def getScaleIndexAux (scale : Int) : List Int → Int
  | [] => -1
  | sc :: rest =>
    if scale ≤ sc then 0
    else
      let r := getScaleIndexAux scale rest
      if r = -1 then -1 else r + 1

/-- The descending search of `GetScaleIndex(int, offsets)` for
`scale == -1`: the largest index holding a valid offset. -/
def lastValidAux (offs : List Nat) : Nat → Option Nat
  | 0 => none
  | k + 1 =>
    if offs.getD k kInvalidOffset ≠ kInvalidOffset then some k
    else lastValidAux offs k

/-- The ascending loop of `GetScaleIndex(int, offsets)`: at the first
breakpoint at or above the requested scale, return its index if its
offset is valid and `-1` otherwise (the `break`); `-1` when no
breakpoint fits. -/
def scaleOffsetAux (scale : Int) : List (Int × Nat) → Int
  | [] => -1
  | (sc, off) :: rest =>
    if scale ≤ sc then (if off ≠ kInvalidOffset then 0 else -1)
    else
      let r := scaleOffsetAux scale rest
      if r < 0 then r else r + 1

/-- The lazy reader (`FeatureType`); `m_cont` is the opaque container:
a byte stream per `(tag, scale-index)`. -/
structure FeatureType where
  m_Data : List Nat
  m_header : FeatureHeader
  m_cont : Nat → Nat → List Nat
  m_base : Nat
  m_CommonOffset : Nat
  m_Header2Offset : Nat
  m_bTypesParsed : Bool
  m_bCommonParsed : Bool
  m_bHeader2Parsed : Bool
  m_bPointsParsed : Bool
  m_bTrianglesParsed : Bool
  m_Types : List Nat
  m_Layer : Int
  m_Name : List Nat
  m_Center : PointD
  m_LimitRect : RectD
  m_Points : List PointD
  m_Triangles : List PointD
  m_ptsSimpMask : Nat
  m_ptsOffsets : List Nat
  m_trgOffsets : List Nat

namespace FeatureType

/-- `FeatureType::Deserialize`: the freshly-wrapped reader state (all
parse flags cleared, offsets arrays initialized to invalid). -/
def mkFromSource (data : List Nat) (hdr : FeatureHeader)
    (cont : Nat → Nat → List Nat) : FeatureType :=
  ⟨data, hdr, cont, hdr.base, 0, 0, false, false, false, false, false,
   [], 0, [], default, RectD.emptyRect, [], [], 0,
   List.replicate 4 kInvalidOffset, List.replicate 4 kInvalidOffset⟩

/-- `FeatureBase::Header()`: the common header byte. -/
def Header (s : FeatureType) : Nat := s.m_Data.headD 0

/-- `GetScaleIndex(int scale)`. -/
def GetScaleIndex (s : FeatureType) (scale : Int) : Int :=
  if scale = -1 then (s.m_header.GetScalesCount : Int) - 1
  else getScaleIndexAux scale s.m_header.scales

/-- `GetScaleIndex(int scale, offsets_t const & offsets)`; `none`
models the `CHECK(false)` abort when `scale == -1` finds no valid
offset. -/
def GetScaleIndexOffsets (s : FeatureType) (scale : Int) (offsets : List Nat) :
    Option Int :=
  if scale = -1 then
    match lastValidAux offsets offsets.length with
    | some i => some (i : Int)
    | none => none
  else
    some (scaleOffsetAux scale (s.m_header.scales.zip offsets))

/-- `FeatureType::ParseTypes` (via `FeatureBase`): `(header & 7)`
var_uints following the header byte. -/
def ParseTypes (s : FeatureType) : Option FeatureType :=
  if s.m_bTypesParsed then none
  else
    match readVarUints (s.Header &&& 7) (s.m_Data.drop 1) with
    | none => none
    | some (types, rest) =>
      some { s with m_Types := types, m_bTypesParsed := true,
                    m_CommonOffset := s.m_Data.length - rest.length }

/-- `FeatureType::ParseCommon` (via `FeatureBase`): optional layer,
name and centre; runs `ParseTypes` first when needed. -/
def ParseCommon (s : FeatureType) : Option FeatureType :=
  if s.m_bCommonParsed then none
  else
    match (if s.m_bTypesParsed then some s else s.ParseTypes) with
    | none => none
    | some s =>
      let l0 := s.m_Data.drop s.m_CommonOffset
      match (if s.Header &&& HEADER_HAS_LAYER ≠ 0 then readVarInt l0
             else some (s.m_Layer, l0)) with
      | none => none
      | some (layer, l1) =>
        match (if s.Header &&& HEADER_HAS_NAME ≠ 0 then
                 match readVarUint l1 with
                 | none => none
                 | some (n, l2) =>
                   if n + 1 ≤ l2.length then some (l2.take (n + 1), l2.drop (n + 1))
                   else none
               else some (s.m_Name, l1)) with
        | none => none
        | some (name, l3) =>
          match (if s.Header &&& HEADER_HAS_POINT ≠ 0 then
                   match readVarUint l3 with
                   | none => none
                   | some (v, l4) =>
                     some (some (PointU2PointD (decodeDelta v (uint64ToPointU s.m_base))), l4)
                 else some (none, l3)) with
          | none => none
          | some (centerOpt, l5) =>
            some { s with
                   m_Layer := layer, m_Name := name,
                   m_Center := centerOpt.getD s.m_Center,
                   m_LimitRect := match centerOpt with
                                  | some c => s.m_LimitRect.add c
                                  | none => s.m_LimitRect,
                   m_bCommonParsed := true,
                   m_Header2Offset := s.m_Data.length - l5.length }

end FeatureType

/-- Read `n` raw bytes. -/
def readBytes : Nat → List Nat → Option (List Nat × List Nat)
  | 0, l => some ([], l)
  | _ + 1, [] => none
  | n + 1, b :: r => (readBytes n r).map (fun p => (b :: p.1, p.2))

/-- Recombine the simplification-mask bytes, least significant first
(the shift-accumulate loop of `ParseHeader2`). -/
def combineMaskBytes : List Nat → Nat
  | [] => 0
  | b :: r => b + 256 * combineMaskBytes r

/-- The loop of `FeatureType::ReadOffsets`: one `var_uint` per set mask
bit, `kInvalidOffset` per clear bit, stopping when the mask runs out. -/
def readOffsetsAux : Nat → List Nat → Option (List Nat × List Nat)
  | 0, l => some ([], l)
  | m + 1, l =>
    if (m + 1) % 2 = 1 then
      match readVarUint l with
      | none => none
      | some (v, r) =>
        (readOffsetsAux ((m + 1) / 2) r).map (fun p => (v :: p.1, p.2))
    else
      (readOffsetsAux ((m + 1) / 2) l).map (fun p => (kInvalidOffset :: p.1, p.2))
  termination_by m _ => m

/-- `FeatureType::ReadOffsets`: `none` models the `ASSERT` on an empty
mask; the result is padded to the 4-entry offsets array (initialized
invalid). -/
def readOffsets (mask : Nat) (l : List Nat) : Option (List Nat × List Nat) :=
  if mask = 0 then none
  else (readOffsetsAux mask l).map
    (fun p => (p.1 ++ List.replicate (4 - p.1.length) kInvalidOffset, p.2))

/-- Expand a triangle strip: each window of three consecutive points
becomes one triangle (the push loop of `ParseHeader2`). -/
def stripToTriangles : List PointD → List PointD
  | p0 :: p1 :: p2 :: rest => p0 :: p1 :: p2 :: stripToTriangles (p1 :: p2 :: rest)
  | _ => []

/-- The inline simplification filter of `FeatureType::ParseGeometry`:
keep the front, every intermediate vertex whose 2-bit mask entry is at
most the scale index, and the back. -/
def filterInnerPoints (pts : List PointD) (mask scaleIndex : Nat) : List PointD :=
  match pts with
  | [] => []
  | p0 :: _ =>
    (p0 :: ((List.range (pts.length - 2)).filter
        (fun j => decide ((mask >>> (2 * j)) &&& 3 ≤ scaleIndex))).map
        (fun j => pts.getD (j + 1) default)) ++ [pts.getLastD default]

namespace FeatureType

/-- `FeatureType::ParseHeader2`: the packed bit header, then per
flavour either the simplification-mask bytes plus the inline geometry,
or the offsets array. -/
def ParseHeader2 (s : FeatureType) : Option FeatureType :=
  if s.m_bHeader2Parsed then none
  else
    match (if s.m_bCommonParsed then some s else s.ParseCommon) with
    | none => none
    | some s =>
      let bs0 : BitSourceState := ⟨s.m_Data.drop s.m_Header2Offset, 0⟩
      match (if s.Header &&& HEADER_IS_LINE ≠ 0 then
               let r1 := bs0.read 4
               if r1.1 = 0 then
                 let r2 := r1.2.read 4
                 some (0, r2.1, r2.2)
               else if 1 < r1.1 then some (r1.1, 0, r1.2) else none
             else some (0, 0, bs0) : Option (Nat × Nat × BitSourceState)) with
      | none => none
      | some (ptsCount, ptsMask, bs1) =>
        let (trgCount, trgMask, bs2) :=
          if s.Header &&& HEADER_IS_AREA ≠ 0 then
            let r1 := bs1.read 4
            if r1.1 = 0 then
              let r2 := r1.2.read 4
              (0, r2.1, r2.2)
            else (r1.1, 0, r1.2)
          else (0, 0, bs1)
        let src0 := bs2.roundPtr
        match (if s.Header &&& HEADER_IS_LINE ≠ 0 then
                 if 0 < ptsCount then
                   if (ptsCount - 2 + 3) / 4 < 4 then
                     match readBytes ((ptsCount - 2 + 3) / 4) src0 with
                     | none => none
                     | some (maskBytes, src1) =>
                       match loadInnerPath src1 ptsCount s.m_base with
                       | none => none
                       | some (pts, src2) =>
                         some ({ s with m_ptsSimpMask := combineMaskBytes maskBytes,
                                        m_Points := pts }, src2)
                   else none
                 else
                   match readOffsets ptsMask src0 with
                   | none => none
                   | some (offs, src1) => some ({ s with m_ptsOffsets := offs }, src1)
               else some (s, src0) : Option (FeatureType × List Nat)) with
        | none => none
        | some (s, src1) =>
          match (if s.Header &&& HEADER_IS_AREA ≠ 0 then
                   if 0 < trgCount then
                     match loadInnerTriangles src1 (trgCount + 2) s.m_base with
                     | none => none
                     | some (strip, src2) =>
                       some ({ s with m_Triangles := s.m_Triangles ++ stripToTriangles strip },
                             src2)
                   else
                     match readOffsets trgMask src1 with
                     | none => none
                     | some (offs, src2) => some ({ s with m_trgOffsets := offs }, src2)
                 else some (s, src1) : Option (FeatureType × List Nat)) with
          | none => none
          | some (s, _) => some { s with m_bHeader2Parsed := true }

/-- `FeatureType::ParseGeometry(scale)`: outer geometry is fetched from
the container at the resolved scale index (left empty when the index
resolves to `-1`); inline geometry is filtered by the simplification
mask; returns the byte size of the outer read. -/
def ParseGeometry (s : FeatureType) (scale : Int) : Option (FeatureType × Nat) :=
  if s.m_bPointsParsed then none
  else
    match (if s.m_bHeader2Parsed then some s else s.ParseHeader2) with
    | none => none
    | some s =>
      if s.Header &&& HEADER_IS_LINE ≠ 0 then
        if s.m_Points.isEmpty then
          match s.GetScaleIndexOffsets scale s.m_ptsOffsets with
          | none => none
          | some ind =>
            if ind ≠ -1 then
              let stream := (s.m_cont GEOMETRY_FILE_TAG ind.toNat).drop
                              (s.m_ptsOffsets.getD ind.toNat 0)
              match loadOuterPath stream with
              | none => none
              | some (pts, rest) =>
                some ({ s with m_Points := pts,
                               m_LimitRect := calcRect pts s.m_LimitRect,
                               m_bPointsParsed := true }, stream.length - rest.length)
            else
              some ({ s with m_LimitRect := calcRect s.m_Points s.m_LimitRect,
                             m_bPointsParsed := true }, 0)
        else
          let scaleIndex := intToUInt32 (s.GetScaleIndex scale)
          if scaleIndex < s.m_header.GetScalesCount then
            let filtered := filterInnerPoints s.m_Points s.m_ptsSimpMask scaleIndex
            some ({ s with m_Points := filtered,
                           m_LimitRect := calcRect filtered s.m_LimitRect,
                           m_bPointsParsed := true }, 0)
          else none
      else some ({ s with m_bPointsParsed := true }, 0)

/-- `FeatureType::ParseTriangles(scale)`: symmetric to
`ParseGeometry` for the area flavour. -/
def ParseTriangles (s : FeatureType) (scale : Int) : Option (FeatureType × Nat) :=
  if s.m_bTrianglesParsed then none
  else
    match (if s.m_bHeader2Parsed then some s else s.ParseHeader2) with
    | none => none
    | some s =>
      if s.Header &&& HEADER_IS_AREA ≠ 0 then
        if s.m_Triangles.isEmpty then
          match s.GetScaleIndexOffsets scale s.m_trgOffsets with
          | none => none
          | some ind =>
            if ind ≠ -1 then
              let stream := (s.m_cont TRIANGLE_FILE_TAG ind.toNat).drop
                              (s.m_trgOffsets.getD ind.toNat 0)
              match loadOuterTriangles stream with
              | none => none
              | some (trgs, rest) =>
                some ({ s with m_Triangles := trgs,
                               m_LimitRect := calcRect trgs s.m_LimitRect,
                               m_bTrianglesParsed := true }, stream.length - rest.length)
            else
              some ({ s with m_LimitRect := calcRect s.m_Triangles s.m_LimitRect,
                             m_bTrianglesParsed := true }, 0)
        else
          some ({ s with m_LimitRect := calcRect s.m_Triangles s.m_LimitRect,
                         m_bTrianglesParsed := true }, 0)
      else some ({ s with m_bTrianglesParsed := true }, 0)

/-- `FeatureType::ParseAll(scale)`: force both geometry and triangles,
each only when not already parsed. -/
def ParseAll (s : FeatureType) (scale : Int) : Option FeatureType :=
  match (if s.m_bPointsParsed then some (s, 0) else s.ParseGeometry scale) with
  | none => none
  | some (s, _) =>
    match (if s.m_bTrianglesParsed then some (s, 0) else s.ParseTriangles scale) with
    | none => none
    | some (s, _) => some s

/-- `FeatureType::IsEmptyGeometry(scale)`: parse everything, then
report whether the scale-relevant geometry came out empty.  (The
feature-kind dispatch `GetFeatureType` is declared in the header:
area before line before point.) -/
def IsEmptyGeometry (s : FeatureType) (scale : Int) : Option (FeatureType × Bool) :=
  match s.ParseAll scale with
  | none => none
  | some s =>
    if s.Header &&& HEADER_IS_AREA ≠ 0 then some (s, s.m_Triangles.isEmpty)
    else if s.Header &&& HEADER_IS_LINE ≠ 0 then some (s, s.m_Points.isEmpty)
    else if s.Header &&& HEADER_HAS_POINT ≠ 0 then some (s, false)
    else none

end FeatureType

/-! ## Auxiliary notions for the Stage-1 round trip -/

/-- One quantization round trip of a point. -/
def qRound (p : PointD) : PointD := PointU2PointD (PointD2PointU p)

/-- A coordinate within the projected bound. -/
def inBoundsQ (x : ℚ) : Bool :=
  decide (-MercatorBounds.bound ≤ x) && decide (x ≤ MercatorBounds.bound)

/-- A point within the projected bound. -/
def inBoundsPt (p : PointD) : Bool := inBoundsQ p.x && inBoundsQ p.y

/-- All coordinates a builder will serialize lie within the projected
bound (the domain of the spec's quantization map). -/
def inBounds (b : FeatureBuilder1) : Bool :=
  (!b.m_bPoint || inBoundsPt b.m_Center) &&
  b.m_Geometry.all inBoundsPt &&
  b.m_Holes.all (fun h => h.all inBoundsPt)

/-- The limit rectangle the mutation API (`SetCenter` / `AddPoint`)
accumulates: the hull of the centre (when present) and the geometry. -/
def rectOf (b : FeatureBuilder1) : RectD :=
  calcRect b.m_Geometry
    (if b.m_bPoint then RectD.emptyRect.add b.m_Center else RectD.emptyRect)

/-- The header byte of `GetHeader` in additive form: the type count in
the three low bits plus one flag bit per property. -/
def hdrVal (len : Nat) (n l p li a : Bool) : Nat :=
  len + (if n then 8 else 0) + (if l then 16 else 0) + (if p then 32 else 0) +
  (if li then 64 else 0) + (if a then 128 else 0)

/-- Closeness of two rectangles: every coordinate within `d`. -/
def rectClose (d : ℚ) (r s : RectD) : Prop :=
  |r.minX - s.minX| ≤ d ∧ |r.minY - s.minY| ≤ d ∧
  |r.maxX - s.maxX| ≤ d ∧ |r.maxY - s.maxY| ≤ d

theorem readVarUint_writeVarUint (n : Nat) (rest : List Nat) :
    readVarUint (writeVarUint n ++ rest) = some (n, rest) := by
  induction n using Nat.strong_induction_on with
  | _ n ih =>
    by_cases h : n < 128
    · simp [writeVarUint, readVarUint, h]
    · rw [writeVarUint]
      simp only [h, dite_false, List.cons_append, readVarUint]
      have h2 : ¬ (n % 128 + 128 < 128) := by omega
      simp only [h2, if_false]
      rw [ih (n / 128) (Nat.div_lt_self (by omega) (by omega))]
      have : n % 128 + 128 * (n / 128) = n := by omega
      simp [this]

theorem unZigZag_zigZag (i : Int) : unZigZag (zigZag i) = i := by
  unfold zigZag unZigZag
  by_cases h : 0 ≤ i
  · have h2 : (2 * i).toNat % 2 = 0 := by omega
    simp only [h, if_true, h2, if_true]
    omega
  · have h2 : (-2 * i - 1).toNat % 2 = 1 := by omega
    simp only [h, if_false, h2]
    norm_num
    omega

theorem readVarInt_writeVarInt (i : Int) (rest : List Nat) :
    readVarInt (writeVarInt i ++ rest) = some (i, rest) := by
  unfold readVarInt writeVarInt
  rw [readVarUint_writeVarUint]
  simp [unZigZag_zigZag]

/-- Every byte produced by `writeVarUint` is `< 256`. -/
theorem writeVarUint_lt_256 (n : Nat) : ∀ b ∈ writeVarUint n, b < 256 := by
  induction n using Nat.strong_induction_on with
  | _ n ih =>
    intro b hb
    by_cases h : n < 128
    · rw [writeVarUint] at hb; simp [h] at hb; omega
    · rw [writeVarUint] at hb
      simp only [h, dite_false, List.mem_cons] at hb
      rcases hb with hb | hb
      · omega
      · exact ih (n / 128) (Nat.div_lt_self (by omega) (by omega)) b hb

theorem interleave_eq_zero_iff (x y : Nat) :
    interleave x y = 0 ↔ (x = 0 ∧ y = 0) := by
  have key : ∀ n x y, x + y ≤ n → (interleave x y = 0 ↔ (x = 0 ∧ y = 0)) := by
    intro n
    induction n with
    | zero =>
      intro x y hxy
      have hx : x = 0 := by omega
      have hy : y = 0 := by omega
      subst hx; subst hy
      rw [interleave]; simp
    | succ n ih =>
      intro x y hxy
      by_cases h : x = 0 ∧ y = 0
      · rw [interleave]; simp [h]
      · rw [interleave]
        simp only [h, if_false, iff_false]
        intro hc
        have h1 : x % 2 = 0 := by omega
        have h2 : y % 2 = 0 := by omega
        have h3 : interleave (x / 2) (y / 2) = 0 := by omega
        have hle : x / 2 + y / 2 ≤ n := by omega
        have := (ih (x / 2) (y / 2) hle).mp h3
        exact h ⟨by omega, by omega⟩
  exact key (x + y) x y le_rfl

theorem deinterleave_interleave (x y : Nat) :
    deinterleave (interleave x y) = (x, y) := by
  have key : ∀ n x y, x + y ≤ n → deinterleave (interleave x y) = (x, y) := by
    intro n
    induction n with
    | zero =>
      intro x y hxy
      have hx : x = 0 := by omega
      have hy : y = 0 := by omega
      subst hx; subst hy
      rw [interleave]; simp [deinterleave]
    | succ n ih =>
      intro x y hxy
      by_cases h : x = 0 ∧ y = 0
      · obtain ⟨hx, hy⟩ := h
        subst hx; subst hy
        rw [interleave]; simp [deinterleave]
      · rw [interleave]
        simp only [h, if_false]
        have hnz : ¬ (x % 2 + 2 * (y % 2) + 4 * interleave (x / 2) (y / 2) = 0) := by
          intro hc
          have h3 : interleave (x / 2) (y / 2) = 0 := by omega
          have := (interleave_eq_zero_iff (x / 2) (y / 2)).mp h3
          exact h ⟨by omega, by omega⟩
        rw [deinterleave]
        simp only [hnz, if_false]
        have hrec : deinterleave (interleave (x / 2) (y / 2)) = (x / 2, y / 2) :=
          ih (x / 2) (y / 2) (by omega)
        have hd4 : (x % 2 + 2 * (y % 2) + 4 * interleave (x / 2) (y / 2)) / 4
            = interleave (x / 2) (y / 2) := by omega
        have hm2 : (x % 2 + 2 * (y % 2) + 4 * interleave (x / 2) (y / 2)) % 2
            = x % 2 := by omega
        have hd2 : (x % 2 + 2 * (y % 2) + 4 * interleave (x / 2) (y / 2)) / 2 % 2
            = y % 2 := by omega
        rw [hd4, hrec]
        simp only [hm2, hd2, Prod.mk.injEq]
        exact ⟨by omega, by omega⟩
  exact key (x + y) x y le_rfl

/-! ## Bit packer lemmas -/

theorem nibble_pack_bits :
    ∀ v0 < 16, ∀ v1 < 16,
      (v0 ||| (v1 <<< 4)) &&& 15 = v0 ∧
      ((v0 ||| (v1 <<< 4)) >>> 4) &&& 15 = v1 ∧
      v0 &&& 15 = v0 := by decide

/-- A `BitSink` fed 4-bit fields flushes after every second field:
its output is `pack4`. -/
theorem writeFields4_eq_pack4_aux :
    ∀ (n : Nat) (vs : List Nat) (bytes : List Nat), vs.length ≤ n →
      ((((vs.map (fun v => (v, 4))).foldl (fun s f => s.write f.1 f.2)
          ⟨bytes, 0, 0⟩ : BitSinkState)).finishSink).bytes = bytes ++ pack4 vs := by
  intro n
  induction n with
  | zero =>
    intro vs bytes hlen
    have : vs = [] := List.length_eq_zero.mp (by omega)
    subst this
    simp [BitSinkState.finishSink, pack4]
  | succ n ih =>
    intro vs bytes hlen
    match vs with
    | [] => simp [BitSinkState.finishSink, pack4]
    | [v] =>
      simp only [List.map_cons, List.map_nil, List.foldl_cons, List.foldl_nil]
      simp [BitSinkState.write, BitSinkState.finishSink, pack4]
    | v0 :: v1 :: rest =>
      simp only [List.map_cons, List.foldl_cons]
      have hw1 : (BitSinkState.write ⟨bytes, 0, 0⟩ v0 4) = ⟨bytes, 4, v0⟩ := by
        simp [BitSinkState.write, BitSinkState.finishSink]
      have hw2 : (BitSinkState.write ⟨bytes, 4, v0⟩ v1 4)
          = ⟨bytes, 8, v0 ||| (v1 <<< 4)⟩ := by
        simp [BitSinkState.write, BitSinkState.finishSink]
      rw [hw1, hw2]
      match rest with
      | [] =>
        simp [BitSinkState.finishSink, pack4]
      | r :: rs =>
        have hw3 : (BitSinkState.write ⟨bytes, 8, v0 ||| (v1 <<< 4)⟩ r 4)
            = ⟨bytes ++ [v0 ||| (v1 <<< 4)], 4, r⟩ := by
          simp [BitSinkState.write, BitSinkState.finishSink]
        have hw3' : (BitSinkState.write ⟨bytes ++ [v0 ||| (v1 <<< 4)], 0, 0⟩ r 4)
            = ⟨bytes ++ [v0 ||| (v1 <<< 4)], 4, r⟩ := by
          simp [BitSinkState.write, BitSinkState.finishSink]
        simp only [List.map_cons, List.foldl_cons, hw3]
        have := ih (r :: rs) (bytes ++ [v0 ||| (v1 <<< 4)])
          (by simp at hlen ⊢; omega)
        simp only [List.map_cons, List.foldl_cons, hw3'] at this
        rw [this, pack4]
        simp

/-- The `BitSource` reader recovers 4-bit fields from `pack4` output. -/
theorem readFields4_pack4_aux :
    ∀ (n : Nat) (vs : List Nat), vs.length ≤ n → (∀ v ∈ vs, v < 16) →
      readFieldsAux ⟨pack4 vs, 0⟩ (vs.map (fun _ => 4)) = vs := by
  intro n
  induction n with
  | zero =>
    intro vs hlen _
    have : vs = [] := List.length_eq_zero.mp (by omega)
    subst this
    simp [readFieldsAux, pack4]
  | succ n ih =>
    intro vs hlen hv
    match vs with
    | [] => simp [readFieldsAux, pack4]
    | [v] =>
      have hv16 : v < 16 := hv v (by simp)
      simp only [pack4, List.map_cons, List.map_nil, readFieldsAux,
                 BitSourceState.read, List.headD]
      norm_num
      exact (nibble_pack_bits v hv16 0 (by omega)).2.2
    | v0 :: v1 :: rest =>
      have h0 : v0 < 16 := hv v0 (by simp)
      have h1 : v1 < 16 := hv v1 (by simp)
      simp only [pack4, List.map_cons, readFieldsAux]
      have hr1 : (BitSourceState.read ⟨(v0 ||| (v1 <<< 4)) :: pack4 rest, 0⟩ 4)
          = (v0, ⟨(v0 ||| (v1 <<< 4)) :: pack4 rest, 4⟩) := by
        simp only [BitSourceState.read, List.headD]
        norm_num
        exact (nibble_pack_bits v0 h0 v1 h1).1
      have hr2 : (BitSourceState.read ⟨(v0 ||| (v1 <<< 4)) :: pack4 rest, 4⟩ 4)
          = (v1, ⟨pack4 rest, 0⟩) := by
        simp only [BitSourceState.read, List.headD]
        norm_num
        exact (nibble_pack_bits v0 h0 v1 h1).2.1
      rw [hr1]
      simp only
      rw [hr2]
      simp only [List.cons.injEq, true_and]
      exact ih rest (by simp at hlen ⊢; omega) (fun v hvm => hv v (by simp [hvm]))

/-- C5 counterexample: the writer places a 5-bit field written after a
4-bit field at position 0 of a fresh byte (`[3, 21]`), but the reader,
asked for 4 then 5 bits, does **not** reproduce this boundary
behaviour: it reads the zero-padded residual of the first byte and
returns 0, not 21. -/
theorem C5_counterexample :
    writeFields [(3, 4), (21, 5)] = [3, 21] ∧
    readFields [3, 21] [4, 5] = [3, 0] ∧
    ([3, 0] : List Nat) ≠ [3, 21] := by decide

/-- C5 (amended): (1) `BitSink::Write` places any field that would
cross the current byte boundary at bit position 0 of the next byte,
flushing the current partial byte first; (2) in particular a 5-bit
field written after a 4-bit field starts a fresh byte; (3) the
`BitSource` reader reproduces the writer's boundary behaviour for the
4-bit fields this codec actually writes (reads that exactly fill each
byte), recovering every field — but not for straddling reads
(see the counterexample). -/
theorem C5_bitpacker_byte_boundary :
    (∀ (s : BitSinkState) (v c : Nat), c ≤ 8 → 8 < s.pos + c →
        s.write v c = ⟨s.bytes ++ [s.current], c, v⟩) ∧
    (∀ a < 16, ∀ b < 32, writeFields [(a, 4), (b, 5)] = [a, b]) ∧
    (∀ vs : List Nat, (∀ v ∈ vs, v < 16) →
        readFields (writeFields (vs.map (fun v => (v, 4)))) (vs.map (fun _ => 4)) = vs) := by
  refine ⟨?_, ?_, ?_⟩
  · intro s v c hc hcross
    have hpos : 0 < s.pos := by omega
    simp [BitSinkState.write, BitSinkState.finishSink, hcross, hpos]
  · decide
  · intro vs hv
    have hw := writeFields4_eq_pack4_aux vs.length vs [] le_rfl
    unfold writeFields
    have hinit : (BitSinkState.init : BitSinkState) = ⟨[], 0, 0⟩ := rfl
    rw [hinit, hw]
    simp only [List.nil_append]
    exact readFields4_pack4_aux vs.length vs le_rfl hv

/-- Witness for `C5_bitpacker_byte_boundary` at concrete inputs. -/
theorem C5_bitpacker_byte_boundary_witness :
    BitSinkState.write ⟨[7], 4, 3⟩ 21 5 = ⟨[7, 3], 5, 21⟩ ∧
    writeFields [(3, 4), (21, 5)] = [3, 21] ∧
    readFields (writeFields [(5, 4), (9, 4), (2, 4)]) [4, 4, 4] = [5, 9, 2] := by
  refine ⟨C5_bitpacker_byte_boundary.1 ⟨[7], 4, 3⟩ 21 5 (by decide) (by decide),
          C5_bitpacker_byte_boundary.2.1 3 (by decide) 21 (by decide), ?_⟩
  have h := C5_bitpacker_byte_boundary.2.2 [5, 9, 2] (by decide)
  simpa using h

/-! ## `set_difference` lemmas -/

/-- On a strictly ascending first range and an ascending second range,
`std::set_difference` is the filter that keeps the elements absent from
the second range. -/
theorem setDifference_eq_filter :
    ∀ (n : Nat) (s d : List Nat), s.length + d.length ≤ n →
      s.Sorted (· < ·) → d.Sorted (· ≤ ·) →
      setDifference s d = s.filter (fun x => decide (x ∉ d)) := by
  intro n
  induction n with
  | zero =>
    intro s d hlen _ _
    have hs : s = [] := List.length_eq_zero.mp (by omega)
    subst hs
    simp [setDifference]
  | succ n ih =>
    intro s d hlen hs hd
    match s, d with
    | [], _ => simp [setDifference]
    | x :: xs, [] => simp [setDifference]
    | x :: xs, y :: ys =>
      have hsx : ∀ z ∈ xs, x < z := List.rel_of_sorted_cons hs
      have hsxs : xs.Sorted (· < ·) := List.sorted_cons.mp hs |>.2
      have hdy : ∀ z ∈ ys, y ≤ z := List.rel_of_sorted_cons hd
      have hdys : ys.Sorted (· ≤ ·) := List.sorted_cons.mp hd |>.2
      by_cases hxy : x < y
      · have hnotin : x ∉ y :: ys := by
          intro hmem
          rcases List.mem_cons.mp hmem with h | h
          · omega
          · have := hdy x h; omega
        rw [setDifference]
        simp only [hxy, if_true]
        rw [ih xs (y :: ys) (by simp only [List.length_cons] at hlen ⊢; omega) hsxs hd]
        simp only [List.mem_cons, not_or] at hnotin
        simp [List.filter_cons, hnotin.1, hnotin.2]
      · by_cases hyx : y < x
        · rw [setDifference]
          simp only [hxy, if_false, hyx, if_true]
          rw [ih (x :: xs) ys (by simp only [List.length_cons] at hlen ⊢; omega) hs hdys]
          apply List.filter_congr
          intro z hz
          have hyz : y < z := by
            rcases List.mem_cons.mp hz with h | h
            · omega
            · have := hsx z h; omega
          have hzy : z ≠ y := by omega
          simp [List.mem_cons, hzy]
        · have hxeq : x = y := by omega
          subst hxeq
          rw [setDifference]
          simp only [lt_self_iff_false, if_false]
          rw [ih xs ys (by simp only [List.length_cons] at hlen ⊢; omega) hsxs hdys]
          have hhead : List.filter (fun z => decide (z ∉ x :: ys)) (x :: xs)
              = List.filter (fun z => decide (z ∉ x :: ys)) xs := by
            simp [List.filter_cons]
          rw [hhead]
          apply List.filter_congr
          intro z hz
          have hxz : x < z := hsx z hz
          have hzx : z ≠ x := by omega
          simp [List.mem_cons, hzx]

/-- C10 counterexample: with the duplicated type list `[5,5]` and the
removal list `[5]`, `AssignType_SetDifference` keeps one copy of 5
(multiset semantics of `std::set_difference`), whereas "the elements of
the sorted old type list that are not in the removal list" is the empty
list. -/
theorem C10_counterexample :
    (FeatureBuilder1.AssignType_SetDifference
        ⟨[5, 5], 0, [], true, false, false, ⟨0, 0⟩, [], [], RectD.emptyRect⟩
        [5]).1.m_Types = [5] ∧
    (sortTypes [5, 5]).filter (fun t => decide (t ∉ ([5] : List Nat))) = [] := by
  constructor
  · simp [FeatureBuilder1.AssignType_SetDifference, sortTypes,
          List.insertionSort, List.orderedInsert, setDifference]
  · decide

/-- C10 (amended): provided the old type list has no duplicates and the
removal list is ascending, `AssignType_SetDifference` replaces the
stored types by the elements of the sorted old type list that are not
in the removal list, the stored types end up in ascending order, and
the call returns `true` iff at least one type remains.  (With
duplicated old types, `std::set_difference` keeps surviving copies —
see the counterexample.) -/
theorem C10_assignType_setDifference (b : FeatureBuilder1) (diff : List Nat)
    (hnd : b.m_Types.Nodup) (hd : diff.Sorted (· ≤ ·)) :
    (b.AssignType_SetDifference diff).1.m_Types
        = (sortTypes b.m_Types).filter (fun t => decide (t ∉ diff)) ∧
    ((b.AssignType_SetDifference diff).1.m_Types).Sorted (· ≤ ·) ∧
    ((b.AssignType_SetDifference diff).2 = true ↔
        (b.AssignType_SetDifference diff).1.m_Types ≠ []) := by
  have hsorted : (sortTypes b.m_Types).Sorted (· ≤ ·) :=
    List.sorted_insertionSort _ _
  have hperm : List.Perm (sortTypes b.m_Types) b.m_Types :=
    List.perm_insertionSort _ _
  have hnd' : (sortTypes b.m_Types).Nodup := hperm.nodup_iff.mpr hnd
  have hlt : (sortTypes b.m_Types).Sorted (· < ·) := hsorted.lt_of_le hnd'
  have heq := setDifference_eq_filter
    ((sortTypes b.m_Types).length + diff.length) (sortTypes b.m_Types) diff
    le_rfl hlt hd
  refine ⟨?_, ?_, ?_⟩
  · simpa [FeatureBuilder1.AssignType_SetDifference] using heq
  · have : (b.AssignType_SetDifference diff).1.m_Types
        = (sortTypes b.m_Types).filter (fun t => decide (t ∉ diff)) := by
      simpa [FeatureBuilder1.AssignType_SetDifference] using heq
    rw [this]
    exact hsorted.filter _
  · simp [FeatureBuilder1.AssignType_SetDifference]

/-- Witness for `C10_assignType_setDifference`. -/
theorem C10_assignType_setDifference_witness :
    (FeatureBuilder1.AssignType_SetDifference
        ⟨[9, 4, 7], 0, [], true, false, false, ⟨0, 0⟩, [], [], RectD.emptyRect⟩
        [7, 8]).1.m_Types
      = (sortTypes [9, 4, 7]).filter (fun t => decide (t ∉ ([7, 8] : List Nat))) ∧
    ((FeatureBuilder1.AssignType_SetDifference
        ⟨[9, 4, 7], 0, [], true, false, false, ⟨0, 0⟩, [], [], RectD.emptyRect⟩
        [7, 8]).1.m_Types).Sorted (· ≤ ·) := by
  have h := C10_assignType_setDifference
    ⟨[9, 4, 7], 0, [], true, false, false, ⟨0, 0⟩, [], [], RectD.emptyRect⟩
    [7, 8] (by decide) (by simp)
  exact ⟨h.1, h.2.1⟩

/-! ## Scale-index resolution lemmas -/

theorem find?_map_succ (p : Nat → Bool) (l : List Nat) :
    (l.map Nat.succ).find? p = (l.find? (fun i => p (i + 1))).map Nat.succ := by
  induction l with
  | nil => simp
  | cons a l ih =>
    simp only [List.map_cons]
    by_cases h : p (a + 1)
    · rw [List.find?_cons_of_pos _ (by simpa using h),
          List.find?_cons_of_pos _ (by simpa using h)]
      simp
    · rw [List.find?_cons_of_neg _ (by simpa using h),
          List.find?_cons_of_neg _ (by simpa using h)]
      exact ih

/-- The descending scan of `GetScaleIndex(-1, offsets)` finds the
largest valid index. -/
theorem lastValidAux_eq (offs : List Nat) :
    ∀ k, lastValidAux offs k
      = ((List.range k).reverse).find?
          (fun i => decide (offs.getD i kInvalidOffset ≠ kInvalidOffset)) := by
  intro k
  induction k with
  | zero => simp [lastValidAux]
  | succ k ih =>
    rw [lastValidAux, List.range_succ]
    simp only [List.reverse_append, List.reverse_cons, List.reverse_nil,
               List.nil_append, List.singleton_append]
    by_cases h : offs.getD k kInvalidOffset ≠ kInvalidOffset
    · rw [List.find?_cons_of_pos _ (by simpa using h), if_pos h]
    · rw [List.find?_cons_of_neg _ (by simpa using h), if_neg h]
      exact ih

/-- The ascending loop of `GetScaleIndex(scale, offsets)`: it stops at
the **first** breakpoint at or above the requested scale and checks only
that index's offset. -/
theorem scaleOffsetAux_eq (scale : Int) :
    ∀ (scs : List Int) (offs : List Nat), scs.length ≤ offs.length →
      scaleOffsetAux scale (scs.zip offs)
        = (match (List.range scs.length).find?
              (fun i => decide (scale ≤ scs.getD i 0)) with
           | none => -1
           | some i =>
             if offs.getD i kInvalidOffset ≠ kInvalidOffset then (i : Int) else -1) := by
  intro scs
  induction scs with
  | nil => intro offs _; simp [scaleOffsetAux]
  | cons sc scs ih =>
    intro offs hlen
    match offs with
    | [] => simp at hlen
    | off :: offs =>
      simp only [List.zip_cons_cons, List.length_cons]
      rw [scaleOffsetAux, List.range_succ_eq_map]
      by_cases h : scale ≤ sc
      · rw [List.find?_cons_of_pos _ (by simpa using h)]
        simp [h]
      · rw [List.find?_cons_of_neg _ (by simpa using h)]
        simp only [h, if_false]
        rw [find?_map_succ]
        have hpred : (fun i => decide (scale ≤ (sc :: scs).getD (i + 1) 0))
            = (fun i => decide (scale ≤ scs.getD i 0)) := by
          funext i
          simp [List.getD_cons_succ]
        rw [hpred, ih offs (by simpa using hlen)]
        cases hfind : (List.range scs.length).find?
            (fun i => decide (scale ≤ scs.getD i 0)) with
        | none => simp
        | some j =>
          simp only [Option.map_some', List.getD_cons_succ, Nat.succ_eq_add_one,
                     List.getD_eq_getElem?_getD, List.getElem?_cons_succ]
          split_ifs <;> first
            | omega
            | (exfalso; linarith [Int.natCast_nonneg j])
            | (push_cast; ring)

/-- C2 counterexample: scale header `[5, 10]`, offsets
`[INVALID, 100]`, requested scale 3.  The smallest index satisfying
`scale ≤ scale_header[i] ∧ offsets[i] ≠ INVALID` is 1, but
`GetScaleIndex` stops at index 0 (whose offset is invalid) and returns
`-1`. -/
theorem C2_counterexample :
    (FeatureType.mkFromSource [] ⟨[5, 10], 0⟩ (fun _ _ => [])).GetScaleIndexOffsets 3
        [kInvalidOffset, 100] = some (-1) ∧
    (3 : Int) ≤ FeatureHeader.GetScale ⟨[5, 10], 0⟩ 1 ∧
    ([kInvalidOffset, 100].getD 1 kInvalidOffset ≠ kInvalidOffset) ∧
    some (-1 : Int) ≠ some (1 : Int) := by
  refine ⟨by decide, by decide, by decide, by decide⟩

/-- C2 (amended): for a requested scale other than `-1`,
`GetScaleIndex(scale, offsets)` locates the **smallest** index `i` with
`scale ≤ scale_header[i]` and returns `i` if `offsets[i]` is valid and
`-1` otherwise — it does not search on to larger indices; with no
fitting breakpoint it returns `-1`.  For requested scale `-1` it
returns the largest index whose offset is valid (and aborts when none
is). -/
theorem C2_getScaleIndex_offsets (s : FeatureType) (scale : Int) (offsets : List Nat)
    (hlen : s.m_header.scales.length ≤ offsets.length) :
    (scale ≠ -1 →
      s.GetScaleIndexOffsets scale offsets
        = some (match (List.range s.m_header.GetScalesCount).find?
                  (fun i => decide (scale ≤ s.m_header.GetScale i)) with
                | none => -1
                | some i =>
                  if offsets.getD i kInvalidOffset ≠ kInvalidOffset then (i : Int)
                  else -1)) ∧
    (scale = -1 →
      s.GetScaleIndexOffsets scale offsets
        = (((List.range offsets.length).reverse).find?
             (fun i => decide (offsets.getD i kInvalidOffset ≠ kInvalidOffset))).map
            (fun i => (i : Int))) := by
  constructor
  · intro hne
    unfold FeatureType.GetScaleIndexOffsets
    simp only [hne, if_false]
    rw [scaleOffsetAux_eq scale s.m_header.scales offsets hlen]
    rfl
  · intro he
    subst he
    unfold FeatureType.GetScaleIndexOffsets
    simp only [if_true, reduceIte]
    rw [lastValidAux_eq]
    cases ((List.range offsets.length).reverse).find?
        (fun i => decide (offsets.getD i kInvalidOffset ≠ kInvalidOffset)) with
    | none => simp
    | some j => simp

/-- Witness for `C2_getScaleIndex_offsets`. -/
theorem C2_getScaleIndex_offsets_witness :
    (FeatureType.mkFromSource [] ⟨[5, 10, 14, 17], 0⟩ (fun _ _ => [])).GetScaleIndexOffsets
        12 [kInvalidOffset, 100, 200, kInvalidOffset] = some 2 ∧
    (FeatureType.mkFromSource [] ⟨[5, 10, 14, 17], 0⟩ (fun _ _ => [])).GetScaleIndexOffsets
        (-1) [kInvalidOffset, 100, 200, kInvalidOffset] = some 2 := by
  have h := C2_getScaleIndex_offsets
    (FeatureType.mkFromSource [] ⟨[5, 10, 14, 17], 0⟩ (fun _ _ => []))
    12 [kInvalidOffset, 100, 200, kInvalidOffset] (by decide)
  have h' := C2_getScaleIndex_offsets
    (FeatureType.mkFromSource [] ⟨[5, 10, 14, 17], 0⟩ (fun _ _ => []))
    (-1) [kInvalidOffset, 100, 200, kInvalidOffset] (by decide)
  exact ⟨(h.1 (by decide)).trans (by decide), (h'.2 rfl).trans (by decide)⟩

/-! ## Inline simplification filter: monotonicity -/

/-- C4: the vertices the inline simplification filter keeps at scale
index `s` form a sublist — in particular a subset — of those it keeps
at scale index `s + 1`: raising the scale index only adds vertices. -/
theorem C4_simplification_monotone (pts : List PointD) (mask s : Nat) :
    List.Sublist (filterInnerPoints pts mask s) (filterInnerPoints pts mask (s + 1)) ∧
    (∀ p, p ∈ filterInnerPoints pts mask s → p ∈ filterInnerPoints pts mask (s + 1)) := by
  have hsub : List.Sublist (filterInnerPoints pts mask s)
      (filterInnerPoints pts mask (s + 1)) := by
    match pts with
    | [] => simp [filterInnerPoints]
    | p0 :: rest =>
      unfold filterInnerPoints
      apply List.Sublist.append _ (List.Sublist.refl _)
      apply List.Sublist.cons₂
      apply List.Sublist.map
      apply List.monotone_filter_right
      intro a ha
      simp only [decide_eq_true_eq] at ha ⊢
      omega
  exact ⟨hsub, fun p hp => hsub.subset hp⟩

/-! ## Inline simplification filter: characterization -/

theorem filter_map_succ (p : Nat → Bool) (l : List Nat) :
    (l.map Nat.succ).filter p = (l.filter (fun i => p (i + 1))).map Nat.succ := by
  induction l with
  | nil => simp
  | cons a l ih =>
    simp only [List.map_cons, List.filter_cons]
    by_cases h : p (a + 1)
    · simp [h, ih]
    · simp [h, ih]

theorem getLastD_eq_getD (l : List PointD) :
    l.getLastD default = l.getD (l.length - 1) default := by
  rw [List.getLastD_eq_getLast?, List.getLast?_eq_getElem?, List.getD_eq_getElem?_getD]

/-- The loop of the inline filter keeps exactly index 0, index `N-1`,
and every intermediate index whose 2-bit mask entry is at most the
scale index, in order. -/
theorem filterInnerPoints_eq (pts : List PointD) (mask si : Nat)
    (h2 : 2 ≤ pts.length) :
    filterInnerPoints pts mask si
      = ((List.range pts.length).filter
          (fun i => decide (i = 0) || decide (i = pts.length - 1) ||
            decide ((mask >>> (2 * (i - 1))) &&& 3 ≤ si))).map
          (fun i => pts.getD i default) := by
  match pts, h2 with
  | p0 :: rest, h2' =>
    have hrl : 1 ≤ rest.length := by
      simp only [List.length_cons] at h2'; omega
    obtain ⟨m, hm⟩ : ∃ m, rest.length = m + 1 := ⟨rest.length - 1, by omega⟩
    have hlen : (p0 :: rest).length = m + 2 := by simp [hm]
    set p : Nat → Bool := fun i =>
      decide (i = 0) || decide (i = (p0 :: rest).length - 1) ||
      decide ((mask >>> (2 * (i - 1))) &&& 3 ≤ si) with hp
    have hrange : List.range (p0 :: rest).length
        = 0 :: ((List.range m).map Nat.succ ++ [m + 1]) := by
      rw [hlen, List.range_succ_eq_map, List.range_succ, List.map_append]
      simp
    have hp0 : p 0 = true := by simp [hp]
    have hplast : p (m + 1) = true := by
      simp only [hp, hlen]
      simp
    have hfilter : (List.range (p0 :: rest).length).filter p
        = 0 :: (((List.range m).filter
            (fun j => decide ((mask >>> (2 * j)) &&& 3 ≤ si))).map Nat.succ
          ++ [m + 1]) := by
      rw [hrange, List.filter_cons, hp0]
      simp only [if_true]
      rw [List.filter_append, filter_map_succ]
      have hmid : (List.range m).filter (fun i => p (i + 1))
          = (List.range m).filter (fun j => decide ((mask >>> (2 * j)) &&& 3 ≤ si)) := by
        apply List.filter_congr
        intro j hj
        have hjm : j < m := List.mem_range.mp hj
        simp only [hp, hlen]
        have hne0 : ¬(j + 1 = 0) := by omega
        have hnel : j ≠ m := by omega
        simp [hne0, hnel]
      rw [hmid]
      simp only [List.filter_cons, hplast]
      simp
    rw [hfilter]
    unfold filterInnerPoints
    simp only [List.map_cons, List.map_append, List.map_map, List.length_cons, hm]
    have hlast : (p0 :: rest).getLastD default
        = (p0 :: rest).getD (m + 1) default := by
      rw [getLastD_eq_getD]
      simp [hm]
    simp only [Nat.add_sub_cancel, List.getD_cons_zero]
    rw [hlast]
    simp only [List.map_cons, List.map_nil]
    rfl

/-- C3: parsing an inline-encoded line of `N ≥ 2` decoded points at a
scale resolving to `scaleIndex` keeps the first and last vertices
unconditionally and each intermediate vertex `i` iff
`((pts_simp_mask >> 2(i-1)) & 3) ≤ scaleIndex`, preserving order. -/
theorem C3_inline_simplification (s : FeatureType) (scale : Int)
    (hH2 : s.m_bHeader2Parsed = true) (hP : s.m_bPointsParsed = false)
    (hline : s.Header &&& HEADER_IS_LINE ≠ 0)
    (hN : 2 ≤ s.m_Points.length)
    (hsi : intToUInt32 (s.GetScaleIndex scale) < s.m_header.GetScalesCount) :
    ∃ s', s.ParseGeometry scale = some (s', 0) ∧
      s'.m_Points
        = ((List.range s.m_Points.length).filter
            (fun i => decide (i = 0) || decide (i = s.m_Points.length - 1) ||
              decide ((s.m_ptsSimpMask >>> (2 * (i - 1))) &&& 3
                        ≤ intToUInt32 (s.GetScaleIndex scale)))).map
          (fun i => s.m_Points.getD i default) := by
  have hne : s.m_Points.isEmpty = false := by
    cases hh : s.m_Points with
    | nil => rw [hh] at hN; simp at hN
    | cons a t => simp
  refine ⟨{ s with
      m_Points := filterInnerPoints s.m_Points s.m_ptsSimpMask
        (intToUInt32 (s.GetScaleIndex scale)),
      m_LimitRect := calcRect (filterInnerPoints s.m_Points s.m_ptsSimpMask
        (intToUInt32 (s.GetScaleIndex scale))) s.m_LimitRect,
      m_bPointsParsed := true }, ?_, ?_⟩
  · unfold FeatureType.ParseGeometry
    simp only [hP, hH2, Bool.false_eq_true, reduceIte, hne, hline, ne_eq,
               not_false_eq_true, if_true, hsi]
  · exact filterInnerPoints_eq s.m_Points s.m_ptsSimpMask
      (intToUInt32 (s.GetScaleIndex scale)) hN

/-- Witness for `C3_inline_simplification`. -/
theorem C3_inline_simplification_witness :
    ∃ s', FeatureType.ParseGeometry
        ⟨[65], ⟨[5, 10], 0⟩, (fun _ _ => []), 0, 0, 0, true, true, true, false, false,
         [], 0, [], ⟨0, 0⟩, RectD.emptyRect,
         [⟨0, 0⟩, ⟨1, 0⟩, ⟨2, 0⟩, ⟨3, 0⟩], [], 6, [], []⟩ 7 = some (s', 0) ∧
      s'.m_Points
        = ((List.range 4).filter
            (fun i => decide (i = 0) || decide (i = 3) ||
              decide ((6 >>> (2 * (i - 1))) &&& 3 ≤ 1))).map
          (fun i => ([⟨0, 0⟩, ⟨1, 0⟩, ⟨2, 0⟩, ⟨3, 0⟩] : List PointD).getD i default) := by
  exact C3_inline_simplification
    ⟨[65], ⟨[5, 10], 0⟩, (fun _ _ => []), 0, 0, 0, true, true, true, false, false,
     [], 0, [], ⟨0, 0⟩, RectD.emptyRect,
     [⟨0, 0⟩, ⟨1, 0⟩, ⟨2, 0⟩, ⟨3, 0⟩], [], 6, [], []⟩ 7
    rfl rfl (by decide) (by decide) (by decide)

/-! ## Missing outer geometry is soft -/

/-- A non-line feature's `ParseGeometry` only sets the flag. -/
theorem parseGeometry_noLine (t : FeatureType) (scale : Int)
    (hP : t.m_bPointsParsed = false) (hH2 : t.m_bHeader2Parsed = true)
    (hline : t.Header &&& HEADER_IS_LINE = 0) :
    t.ParseGeometry scale = some ({ t with m_bPointsParsed := true }, 0) := by
  unfold FeatureType.ParseGeometry
  simp only [FeatureType.Header] at hline
  simp only [FeatureType.Header, hP, Bool.false_eq_true, reduceIte, hH2, if_true,
             hline, ne_eq, not_true_eq_false, if_false]

/-- A line feature with outer geometry and no resolvable scale index:
`ParseGeometry` leaves the points empty and only sets the flag. -/
theorem parseGeometry_missingOuter (t : FeatureType) (scale : Int)
    (hP : t.m_bPointsParsed = false) (hH2 : t.m_bHeader2Parsed = true)
    (hline : t.Header &&& HEADER_IS_LINE ≠ 0) (hpts : t.m_Points = [])
    (hidx : t.GetScaleIndexOffsets scale t.m_ptsOffsets = some (-1)) :
    t.ParseGeometry scale = some ({ t with m_bPointsParsed := true }, 0) := by
  unfold FeatureType.ParseGeometry
  simp only [FeatureType.Header] at hline
  simp only [FeatureType.Header, hP, Bool.false_eq_true, reduceIte, hH2, if_true,
             hline, ne_eq, not_false_eq_true, hpts, List.isEmpty_nil, hidx]
  simp [calcRect, hpts]

/-- A non-area feature's `ParseTriangles` only sets the flag. -/
theorem parseTriangles_noArea (t : FeatureType) (scale : Int)
    (hT : t.m_bTrianglesParsed = false) (hH2 : t.m_bHeader2Parsed = true)
    (harea : t.Header &&& HEADER_IS_AREA = 0) :
    t.ParseTriangles scale = some ({ t with m_bTrianglesParsed := true }, 0) := by
  unfold FeatureType.ParseTriangles
  simp only [FeatureType.Header] at harea
  simp only [FeatureType.Header, hT, Bool.false_eq_true, reduceIte, hH2, if_true,
             harea, ne_eq, not_true_eq_false, if_false]

/-- An area feature with outer triangles and no resolvable scale index:
`ParseTriangles` leaves the triangles empty and only sets the flag. -/
theorem parseTriangles_missingOuter (t : FeatureType) (scale : Int)
    (hT : t.m_bTrianglesParsed = false) (hH2 : t.m_bHeader2Parsed = true)
    (harea : t.Header &&& HEADER_IS_AREA ≠ 0) (htrgs : t.m_Triangles = [])
    (hidx : t.GetScaleIndexOffsets scale t.m_trgOffsets = some (-1)) :
    t.ParseTriangles scale = some ({ t with m_bTrianglesParsed := true }, 0) := by
  unfold FeatureType.ParseTriangles
  simp only [FeatureType.Header] at harea
  simp only [FeatureType.Header, hT, Bool.false_eq_true, reduceIte, hH2, if_true,
             harea, ne_eq, not_false_eq_true, htrgs, List.isEmpty_nil, hidx]
  simp [calcRect, htrgs]

/-- C7: when scale-index resolution over the stored offsets yields `-1`
for a line (resp. area) feature with outer geometry, `ParseGeometry`
(resp. `ParseTriangles`) succeeds without touching the container,
leaves the point (resp. triangle) list empty, and `IsEmptyGeometry`
then reports `true` at that scale. -/
theorem C7_missing_outer_geometry :
    (∀ (s : FeatureType) (scale : Int),
      s.m_bHeader2Parsed = true → s.m_bPointsParsed = false →
      s.m_bTrianglesParsed = false →
      s.Header &&& HEADER_IS_LINE ≠ 0 → s.Header &&& HEADER_IS_AREA = 0 →
      s.m_Points = [] →
      s.GetScaleIndexOffsets scale s.m_ptsOffsets = some (-1) →
      (s.ParseGeometry scale = some ({ s with m_bPointsParsed := true }, 0) ∧
       ∃ s', s.IsEmptyGeometry scale = some (s', true))) ∧
    (∀ (s : FeatureType) (scale : Int),
      s.m_bHeader2Parsed = true → s.m_bPointsParsed = false →
      s.m_bTrianglesParsed = false →
      s.Header &&& HEADER_IS_AREA ≠ 0 → s.Header &&& HEADER_IS_LINE = 0 →
      s.m_Triangles = [] →
      s.GetScaleIndexOffsets scale s.m_trgOffsets = some (-1) →
      (s.ParseTriangles scale = some ({ s with m_bTrianglesParsed := true }, 0) ∧
       ∃ s', s.IsEmptyGeometry scale = some (s', true))) := by
  constructor
  · intro s scale hH2 hP hT hline harea hpts hidx
    have hgeom := parseGeometry_missingOuter s scale hP hH2 hline hpts hidx
    have htrg := parseTriangles_noArea { s with m_bPointsParsed := true } scale hT hH2 harea
    refine ⟨hgeom, ⟨{ { s with m_bPointsParsed := true } with m_bTrianglesParsed := true },
                    ?_⟩⟩
    unfold FeatureType.IsEmptyGeometry FeatureType.ParseAll
    simp only [hpts, hT, hH2] at hgeom htrg ⊢
    simp only [hP, Bool.false_eq_true, reduceIte, hgeom]
    simp only [reduceIte, htrg]
    have hareaD : s.m_Data.headD 0 &&& HEADER_IS_AREA = 0 := harea
    have hlineD : s.m_Data.headD 0 &&& HEADER_IS_LINE ≠ 0 := hline
    simp only [FeatureType.Header, hareaD, ne_eq, not_true_eq_false, if_false,
               reduceIte, hlineD, not_false_eq_true, if_true, List.isEmpty_nil]
  · intro s scale hH2 hP hT harea hline htrgs hidx
    have hgeom := parseGeometry_noLine s scale hP hH2 hline
    have htrgOnly := parseTriangles_missingOuter s scale hT hH2 harea htrgs hidx
    have htrg2 := parseTriangles_missingOuter { s with m_bPointsParsed := true } scale
      hT hH2 harea htrgs hidx
    refine ⟨htrgOnly, ⟨{ { s with m_bPointsParsed := true } with m_bTrianglesParsed := true },
                       ?_⟩⟩
    unfold FeatureType.IsEmptyGeometry FeatureType.ParseAll
    simp only [htrgs, hT, hH2] at hgeom htrg2 ⊢
    simp only [hP, Bool.false_eq_true, reduceIte, hgeom]
    simp only [reduceIte, htrg2]
    have hareaD : s.m_Data.headD 0 &&& HEADER_IS_AREA ≠ 0 := harea
    simp only [FeatureType.Header, hareaD, ne_eq, not_false_eq_true, if_true,
               reduceIte, List.isEmpty_nil]

/-- Witness for `C7_missing_outer_geometry` (a line and an area feature
whose offsets arrays hold no valid entry at the requested scale). -/
theorem C7_missing_outer_geometry_witness :
    (FeatureType.ParseGeometry
        ⟨[65], ⟨[5, 10], 0⟩, (fun _ _ => []), 0, 0, 0, true, true, true, false, false,
         [], 0, [], ⟨0, 0⟩, RectD.emptyRect, [], [], 0,
         [kInvalidOffset, kInvalidOffset], []⟩ 3).isSome ∧
    (FeatureType.ParseTriangles
        ⟨[129], ⟨[5, 10], 0⟩, (fun _ _ => []), 0, 0, 0, true, true, true, false, false,
         [], 0, [], ⟨0, 0⟩, RectD.emptyRect, [], [], 0, [],
         [kInvalidOffset, kInvalidOffset]⟩ 3).isSome := by
  have h1 := C7_missing_outer_geometry.1
    ⟨[65], ⟨[5, 10], 0⟩, (fun _ _ => []), 0, 0, 0, true, true, true, false, false,
     [], 0, [], ⟨0, 0⟩, RectD.emptyRect, [], [], 0,
     [kInvalidOffset, kInvalidOffset], []⟩ 3
    rfl rfl rfl (by decide) (by decide) rfl (by decide)
  have h2 := C7_missing_outer_geometry.2
    ⟨[129], ⟨[5, 10], 0⟩, (fun _ _ => []), 0, 0, 0, true, true, true, false, false,
     [], 0, [], ⟨0, 0⟩, RectD.emptyRect, [], [], 0, [],
     [kInvalidOffset, kInvalidOffset]⟩ 3
    rfl rfl rfl (by decide) (by decide) rfl (by decide)
  constructor
  · rw [h1.1]; rfl
  · rw [h2.1]; rfl

/-! ## Parse stage machine: flag propagation -/

theorem parseTypes_flags (s s' : FeatureType) (h : s.ParseTypes = some s') :
    s'.m_bTypesParsed = true ∧ s'.m_bCommonParsed = s.m_bCommonParsed ∧
    s'.m_bHeader2Parsed = s.m_bHeader2Parsed ∧
    s'.m_bPointsParsed = s.m_bPointsParsed ∧
    s'.m_bTrianglesParsed = s.m_bTrianglesParsed := by
  unfold FeatureType.ParseTypes at h
  split at h
  · exact absurd h (by simp)
  · split at h
    · exact absurd h (by simp)
    · simp only [Option.some.injEq] at h
      subst h
      simp

theorem prereqTypes (s s1 : FeatureType)
    (h : (if s.m_bTypesParsed then some s else s.ParseTypes) = some s1) :
    s1.m_bTypesParsed = true ∧ s1.m_bCommonParsed = s.m_bCommonParsed ∧
    s1.m_bHeader2Parsed = s.m_bHeader2Parsed ∧
    s1.m_bPointsParsed = s.m_bPointsParsed ∧
    s1.m_bTrianglesParsed = s.m_bTrianglesParsed := by
  split at h
  · simp only [Option.some.injEq] at h
    subst h
    refine ⟨by assumption, rfl, rfl, rfl, rfl⟩
  · exact parseTypes_flags s s1 h

theorem parseCommon_flags (s s' : FeatureType) (h : s.ParseCommon = some s') :
    s'.m_bTypesParsed = true ∧ s'.m_bCommonParsed = true ∧
    s'.m_bHeader2Parsed = s.m_bHeader2Parsed ∧
    s'.m_bPointsParsed = s.m_bPointsParsed ∧
    s'.m_bTrianglesParsed = s.m_bTrianglesParsed := by
  unfold FeatureType.ParseCommon at h
  dsimp only at h
  split at h
  · exact absurd h (by simp)
  · split at h
    · exact absurd h (by simp)
    · rename_i s1 heq1
      have hflags := prereqTypes s s1 heq1
      repeat' split at h
      all_goals first
        | exact Option.noConfusion h
        | (simp only [Option.some.injEq] at h; subst h;
           exact ⟨by simp [hflags.1], by simp, by simp [hflags.2.2.1],
                  by simp [hflags.2.2.2.1], by simp [hflags.2.2.2.2]⟩)

theorem prereqCommon_flags (s s1 : FeatureType)
    (h : (if s.m_bCommonParsed then some s else s.ParseCommon) = some s1) :
    s1.m_bCommonParsed = true ∧ s1.m_bHeader2Parsed = s.m_bHeader2Parsed ∧
    s1.m_bPointsParsed = s.m_bPointsParsed ∧
    s1.m_bTrianglesParsed = s.m_bTrianglesParsed ∧
    ((s.m_bCommonParsed = true → s.m_bTypesParsed = true) →
      s1.m_bTypesParsed = true) := by
  split at h
  · simp only [Option.some.injEq] at h
    subst h
    exact ⟨by assumption, rfl, rfl, rfl, fun hs => hs (by assumption)⟩
  · have c := parseCommon_flags s s1 h
    exact ⟨c.2.1, c.2.2.1, c.2.2.2.1, c.2.2.2.2, fun _ => c.1⟩

theorem parseHeader2_flags (s s' : FeatureType) (h : s.ParseHeader2 = some s') :
    s'.m_bCommonParsed = true ∧ s'.m_bHeader2Parsed = true ∧
    s'.m_bPointsParsed = s.m_bPointsParsed ∧
    s'.m_bTrianglesParsed = s.m_bTrianglesParsed ∧
    ((s.m_bCommonParsed = true → s.m_bTypesParsed = true) →
      s'.m_bTypesParsed = true) := by
  unfold FeatureType.ParseHeader2 at h
  dsimp only at h
  split at h
  · exact Option.noConfusion h
  · split at h
    · exact Option.noConfusion h
    · rename_i s1 heq1
      have hflags := prereqCommon_flags s s1 heq1
      split at h
      · exact Option.noConfusion h
      · rename_i trip heqA
        split at h
        · exact Option.noConfusion h
        · rename_i s2 src1 heqB
          have hs2 : s2.m_bTypesParsed = s1.m_bTypesParsed ∧
              s2.m_bCommonParsed = s1.m_bCommonParsed ∧
              s2.m_bHeader2Parsed = s1.m_bHeader2Parsed ∧
              s2.m_bPointsParsed = s1.m_bPointsParsed ∧
              s2.m_bTrianglesParsed = s1.m_bTrianglesParsed := by
            clear h
            repeat' split at heqB
            all_goals first
              | exact Option.noConfusion heqB
              | (simp only [Option.some.injEq, Prod.mk.injEq] at heqB;
                 obtain ⟨h1, _⟩ := heqB; subst h1; simp)
          split at h
          · exact Option.noConfusion h
          · rename_i s3 src2 heqC
            have hs3 : s3.m_bTypesParsed = s2.m_bTypesParsed ∧
                s3.m_bCommonParsed = s2.m_bCommonParsed ∧
                s3.m_bHeader2Parsed = s2.m_bHeader2Parsed ∧
                s3.m_bPointsParsed = s2.m_bPointsParsed ∧
                s3.m_bTrianglesParsed = s2.m_bTrianglesParsed := by
              clear h
              repeat' split at heqC
              all_goals first
                | exact Option.noConfusion heqC
                | (simp only [Option.some.injEq, Prod.mk.injEq] at heqC;
                   obtain ⟨h1, _⟩ := heqC; subst h1; simp)
            simp only [Option.some.injEq] at h
            subst h
            refine ⟨?_, by simp, ?_, ?_, ?_⟩
            · simp only [hs3.2.1, hs2.2.1, hflags.1]
            · simp only [hs3.2.2.2.1, hs2.2.2.2.1, hflags.2.2.1]
            · simp only [hs3.2.2.2.2, hs2.2.2.2.2, hflags.2.2.2.1]
            · intro hstart
              simp only [hs3.1, hs2.1]
              exact hflags.2.2.2.2 hstart

theorem prereqHeader2 (s s1 : FeatureType)
    (h : (if s.m_bHeader2Parsed then some s else s.ParseHeader2) = some s1) :
    s1.m_bHeader2Parsed = true ∧ s1.m_bPointsParsed = s.m_bPointsParsed ∧
    s1.m_bTrianglesParsed = s.m_bTrianglesParsed := by
  split at h
  · simp only [Option.some.injEq] at h
    subst h
    exact ⟨by assumption, rfl, rfl⟩
  · have c := parseHeader2_flags s s1 h
    exact ⟨c.2.1, c.2.2.1, c.2.2.2.1⟩

theorem parseGeometry_flags (s : FeatureType) (scale : Int) (r : FeatureType × Nat)
    (h : s.ParseGeometry scale = some r) :
    r.1.m_bHeader2Parsed = true ∧ r.1.m_bPointsParsed = true ∧
    r.1.m_bTrianglesParsed = s.m_bTrianglesParsed := by
  unfold FeatureType.ParseGeometry at h
  dsimp only at h
  split at h
  · exact Option.noConfusion h
  · split at h
    · exact Option.noConfusion h
    · rename_i s1 heq1
      have hpre := prereqHeader2 s s1 heq1
      repeat' split at h
      all_goals first
        | exact Option.noConfusion h
        | (simp only [Option.some.injEq] at h; subst h;
           exact ⟨by simp [hpre.1], by simp, by simp [hpre.2.2]⟩)

theorem parseTriangles_flags (s : FeatureType) (scale : Int) (r : FeatureType × Nat)
    (h : s.ParseTriangles scale = some r) :
    r.1.m_bHeader2Parsed = true ∧ r.1.m_bTrianglesParsed = true ∧
    r.1.m_bPointsParsed = s.m_bPointsParsed := by
  unfold FeatureType.ParseTriangles at h
  dsimp only at h
  split at h
  · exact Option.noConfusion h
  · split at h
    · exact Option.noConfusion h
    · rename_i s1 heq1
      have hpre := prereqHeader2 s s1 heq1
      repeat' split at h
      all_goals first
        | exact Option.noConfusion h
        | (simp only [Option.some.injEq] at h; subst h;
           exact ⟨by simp [hpre.1], by simp, by simp [hpre.2.1]⟩)

theorem parseAll_flags (s : FeatureType) (scale : Int) (s' : FeatureType)
    (h : s.ParseAll scale = some s') :
    s'.m_bPointsParsed = true ∧ s'.m_bTrianglesParsed = true := by
  unfold FeatureType.ParseAll at h
  split at h
  · exact Option.noConfusion h
  · rename_i s2 sz2 heqG
    have h2 : s2.m_bPointsParsed = true := by
      split at heqG
      · simp only [Option.some.injEq, Prod.mk.injEq] at heqG
        obtain ⟨h1, _⟩ := heqG
        subst h1
        assumption
      · exact (parseGeometry_flags s scale (s2, sz2) heqG).2.1
    split at h
    · exact Option.noConfusion h
    · rename_i s3 sz3 heqT
      have h3 : s3.m_bTrianglesParsed = true ∧ s3.m_bPointsParsed = s2.m_bPointsParsed := by
        split at heqT
        · simp only [Option.some.injEq, Prod.mk.injEq] at heqT
          obtain ⟨h1, _⟩ := heqT
          subst h1
          exact ⟨by assumption, rfl⟩
        · have c := parseTriangles_flags s2 scale (s3, sz3) heqT
          exact ⟨c.2.1, c.2.2⟩
      simp only [Option.some.injEq] at h
      subst h
      exact ⟨h3.2.trans h2, h3.1⟩


/-- C9: the reader's parse stages form the chain
types → common → header2 → {points, triangles}: (1) each `Parse*`
asserts it has not already run (running a stage twice aborts); (2) a
stage invokes any missing prerequisite itself, so after it succeeds its
own flag and all prerequisite flags are set (for `ParseHeader2`'s
types flag, provided the start state is consistent: common parsed
implies types parsed); (3) `ParseAll(scale)` leaves both the
points-parsed and triangles-parsed flags set, and is idempotent: run
again (at any scale) it returns the same state unchanged. -/
theorem C9_parse_stage_machine :
    (∀ s : FeatureType, s.m_bTypesParsed = true → s.ParseTypes = none) ∧
    (∀ s : FeatureType, s.m_bCommonParsed = true → s.ParseCommon = none) ∧
    (∀ s : FeatureType, s.m_bHeader2Parsed = true → s.ParseHeader2 = none) ∧
    (∀ (s : FeatureType) (scale : Int),
      s.m_bPointsParsed = true → s.ParseGeometry scale = none) ∧
    (∀ (s : FeatureType) (scale : Int),
      s.m_bTrianglesParsed = true → s.ParseTriangles scale = none) ∧
    (∀ s s' : FeatureType, s.ParseTypes = some s' → s'.m_bTypesParsed = true) ∧
    (∀ s s' : FeatureType, s.ParseCommon = some s' →
      s'.m_bTypesParsed = true ∧ s'.m_bCommonParsed = true) ∧
    (∀ s s' : FeatureType, s.ParseHeader2 = some s' →
      (s.m_bCommonParsed = true → s.m_bTypesParsed = true) →
      s'.m_bTypesParsed = true ∧ s'.m_bCommonParsed = true ∧
      s'.m_bHeader2Parsed = true) ∧
    (∀ (s : FeatureType) (scale : Int) (r : FeatureType × Nat),
      s.ParseGeometry scale = some r →
      r.1.m_bHeader2Parsed = true ∧ r.1.m_bPointsParsed = true) ∧
    (∀ (s : FeatureType) (scale : Int) (r : FeatureType × Nat),
      s.ParseTriangles scale = some r →
      r.1.m_bHeader2Parsed = true ∧ r.1.m_bTrianglesParsed = true) ∧
    (∀ (s : FeatureType) (scale : Int) (s' : FeatureType),
      s.ParseAll scale = some s' →
      s'.m_bPointsParsed = true ∧ s'.m_bTrianglesParsed = true) ∧
    (∀ (s : FeatureType) (scale scale' : Int) (s' : FeatureType),
      s.ParseAll scale = some s' → s'.ParseAll scale' = some s') := by
  refine ⟨?_, ?_, ?_, ?_, ?_, ?_, ?_, ?_, ?_, ?_, ?_, ?_⟩
  · intro s h
    unfold FeatureType.ParseTypes
    simp [h]
  · intro s h
    unfold FeatureType.ParseCommon
    simp [h]
  · intro s h
    unfold FeatureType.ParseHeader2
    simp [h]
  · intro s scale h
    unfold FeatureType.ParseGeometry
    simp [h]
  · intro s scale h
    unfold FeatureType.ParseTriangles
    simp [h]
  · intro s s' h
    exact (parseTypes_flags s s' h).1
  · intro s s' h
    have c := parseCommon_flags s s' h
    exact ⟨c.1, c.2.1⟩
  · intro s s' h hstart
    have c := parseHeader2_flags s s' h
    exact ⟨c.2.2.2.2 hstart, c.1, c.2.1⟩
  · intro s scale r h
    have c := parseGeometry_flags s scale r h
    exact ⟨c.1, c.2.1⟩
  · intro s scale r h
    have c := parseTriangles_flags s scale r h
    exact ⟨c.1, c.2.1⟩
  · intro s scale s' h
    exact parseAll_flags s scale s' h
  · intro s scale scale' s' h
    have c := parseAll_flags s scale s' h
    unfold FeatureType.ParseAll
    simp [c.1, c.2]

/-- Witness for `C9_parse_stage_machine`: a point-only feature whose
prior stages are parsed; its `ParseAll` run and rerun, plus the
re-entry assert for `ParseTypes`. -/
theorem C9_parse_stage_machine_witness :
    FeatureType.ParseTypes
      ⟨[33, 7], ⟨[5], 0⟩, (fun _ _ => []), 0, 1, 2, true, true, true, false, false,
       [7], 0, [], ⟨0, 0⟩, RectD.emptyRect, [], [], 0,
       List.replicate 4 kInvalidOffset, List.replicate 4 kInvalidOffset⟩ = none ∧
    ((⟨[33, 7], ⟨[5], 0⟩, (fun _ _ => []), 0, 1, 2, true, true, true, true, true,
       [7], 0, [], ⟨0, 0⟩, RectD.emptyRect, [], [], 0,
       List.replicate 4 kInvalidOffset, List.replicate 4 kInvalidOffset⟩ :
        FeatureType).m_bPointsParsed = true ∧
     (⟨[33, 7], ⟨[5], 0⟩, (fun _ _ => []), 0, 1, 2, true, true, true, true, true,
       [7], 0, [], ⟨0, 0⟩, RectD.emptyRect, [], [], 0,
       List.replicate 4 kInvalidOffset, List.replicate 4 kInvalidOffset⟩ :
        FeatureType).m_bTrianglesParsed = true) ∧
    FeatureType.ParseAll
      ⟨[33, 7], ⟨[5], 0⟩, (fun _ _ => []), 0, 1, 2, true, true, true, true, true,
       [7], 0, [], ⟨0, 0⟩, RectD.emptyRect, [], [], 0,
       List.replicate 4 kInvalidOffset, List.replicate 4 kInvalidOffset⟩ 9
      = some ⟨[33, 7], ⟨[5], 0⟩, (fun _ _ => []), 0, 1, 2, true, true, true, true, true,
          [7], 0, [], ⟨0, 0⟩, RectD.emptyRect, [], [], 0,
          List.replicate 4 kInvalidOffset, List.replicate 4 kInvalidOffset⟩ := by
  refine ⟨C9_parse_stage_machine.1 _ rfl, ?_, ?_⟩
  · exact C9_parse_stage_machine.2.2.2.2.2.2.2.2.2.2.1
      ⟨[33, 7], ⟨[5], 0⟩, (fun _ _ => []), 0, 1, 2, true, true, true, false, false,
       [7], 0, [], ⟨0, 0⟩, RectD.emptyRect, [], [], 0,
       List.replicate 4 kInvalidOffset, List.replicate 4 kInvalidOffset⟩ 9 _ rfl
  · exact C9_parse_stage_machine.2.2.2.2.2.2.2.2.2.2.2
      ⟨[33, 7], ⟨[5], 0⟩, (fun _ _ => []), 0, 1, 2, true, true, true, false, false,
       [7], 0, [], ⟨0, 0⟩, RectD.emptyRect, [], [], 0,
       List.replicate 4 kInvalidOffset, List.replicate 4 kInvalidOffset⟩ 9 9 _ rfl

/-! ## Hole containment filter -/

/-- C6: `SetAreaAddHoles` retains exactly the candidate holes whose
first vertex the region built from the outer geometry contains, in
order, and `Serialize` writes exactly the retained-hole count (followed
by the retained hole paths) after the outer path. -/
theorem C6_hole_containment (b : FeatureBuilder1) (holes : List (List PointD))
    (hvalid : (b.SetAreaAddHoles holes).CheckValid = true) :
    (b.SetAreaAddHoles holes).m_Holes
      = holes.filter (fun h => regionContains b.m_Geometry (h.headD default)) ∧
    FeatureBuilder1.Serialize (b.SetAreaAddHoles holes)
      = FeatureBuilder1.SerializeBase (b.SetAreaAddHoles holes) ⟨0, 0⟩ ++
        saveOuterPath b.m_Geometry ++
        (writeVarUint (holes.filter
            (fun h => regionContains b.m_Geometry (h.headD default))).length ++
         ((holes.filter (fun h => regionContains b.m_Geometry (h.headD default))).map
            saveOuterPath).flatten) := by
  have h1 : (b.SetAreaAddHoles holes).m_Holes
      = holes.filter (fun h => regionContains b.m_Geometry (h.headD default)) := by
    unfold FeatureBuilder1.SetAreaAddHoles
    by_cases hh : holes.isEmpty
    · have : holes = [] := List.isEmpty_iff.mp hh
      subst this
      simp
    · simp [hh]
  refine ⟨h1, ?_⟩
  unfold FeatureBuilder1.Serialize
  have harea : (b.SetAreaAddHoles holes).m_bArea = true := by
    unfold FeatureBuilder1.SetAreaAddHoles
    by_cases hh : holes.isEmpty <;> simp [hh]
  have hgeom : (b.SetAreaAddHoles holes).m_Geometry = b.m_Geometry := by
    unfold FeatureBuilder1.SetAreaAddHoles
    by_cases hh : holes.isEmpty <;> simp [hh]
  rw [harea, hgeom, h1]
  simp [List.append_assoc]

/-- Witness for `C6_hole_containment`: a square with one hole inside
(retained) and one far outside (dropped). -/
theorem C6_hole_containment_witness :
    (FeatureBuilder1.SetAreaAddHoles
        ⟨[1], 0, [], false, false, false, ⟨0, 0⟩,
         [⟨0, 0⟩, ⟨10, 0⟩, ⟨10, 10⟩, ⟨0, 10⟩, ⟨0, 0⟩], [], RectD.emptyRect⟩
        [[⟨1, 1⟩, ⟨2, 1⟩, ⟨1, 2⟩], [⟨100, 100⟩, ⟨101, 100⟩, ⟨100, 101⟩]]).m_Holes
      = ([[⟨1, 1⟩, ⟨2, 1⟩, ⟨1, 2⟩], [⟨100, 100⟩, ⟨101, 100⟩, ⟨100, 101⟩]] :
          List (List PointD)).filter
          (fun h => regionContains
            [⟨0, 0⟩, ⟨10, 0⟩, ⟨10, 10⟩, ⟨0, 10⟩, ⟨0, 0⟩] (h.headD default)) := by
  exact (C6_hole_containment
    ⟨[1], 0, [], false, false, false, ⟨0, 0⟩,
     [⟨0, 0⟩, ⟨10, 0⟩, ⟨10, 10⟩, ⟨0, 10⟩, ⟨0, 0⟩], [], RectD.emptyRect⟩
    [[⟨1, 1⟩, ⟨2, 1⟩, ⟨1, 2⟩], [⟨100, 100⟩, ⟨101, 100⟩, ⟨100, 101⟩]]
    (by norm_num [FeatureBuilder1.SetAreaAddHoles, FeatureBuilder1.CheckValid,
                  regionContains, edgeCrossesRay, List.rotate, maxTypesCount])).1

/-! ## Stage-2 offset reversal -/

theorem readOffsetsAux_full :
    ∀ (vals rest : List Nat),
      readOffsetsAux (2 ^ vals.length - 1) (writeVarUintArray vals ++ rest)
        = some (vals, rest) := by
  intro vals
  induction vals with
  | nil =>
    intro rest
    simp [readOffsetsAux, writeVarUintArray]
  | cons v vs ih =>
    intro rest
    obtain ⟨m, hm⟩ : ∃ m, 2 ^ (vs.length + 1) - 1 = m + 1 :=
      ⟨2 ^ (vs.length + 1) - 2, by
        have h1 : 2 ^ vs.length ≥ 1 := Nat.one_le_two_pow
        have h2 : 2 ^ (vs.length + 1) = 2 * 2 ^ vs.length := by ring
        omega⟩
    have hodd : (m + 1) % 2 = 1 := by
      have h2 : 2 ^ (vs.length + 1) = 2 * 2 ^ vs.length := by ring
      omega
    have hhalf : (m + 1) / 2 = 2 ^ vs.length - 1 := by
      have h1 : 2 ^ vs.length ≥ 1 := Nat.one_le_two_pow
      have h2 : 2 ^ (vs.length + 1) = 2 * 2 ^ vs.length := by ring
      omega
    simp only [List.length_cons, hm]
    rw [readOffsetsAux]
    simp only [hodd, if_true, reduceIte]
    have hbytes : writeVarUintArray (v :: vs) ++ rest
        = writeVarUint v ++ (writeVarUintArray vs ++ rest) := by
      simp [writeVarUintArray]
    rw [hbytes, readVarUint_writeVarUint]
    simp only [hhalf, ih rest]
    rfl

/-- The offsets array `ReadOffsets` reconstructs from the writer's
var-uint stream under a full mask: the written values in order, padded
with invalid entries. -/
theorem readOffsets_writeVarUintArray (vals rest : List Nat) (h0 : vals ≠ []) :
    readOffsets (2 ^ vals.length - 1) (writeVarUintArray vals ++ rest)
      = some (vals ++ List.replicate (4 - vals.length) kInvalidOffset, rest) := by
  unfold readOffsets
  have hne : ¬(2 ^ vals.length - 1 = 0) := by
    have h1 : 1 ≤ vals.length := by
      cases vals with
      | nil => exact absurd rfl h0
      | cons a t => simp
    have h2 : 2 ^ 1 ≤ 2 ^ vals.length := Nat.pow_le_pow_right (by omega) h1
    omega
  simp only [hne, if_false, reduceIte, readOffsetsAux_full]
  rfl

/-- C8 counterexample: offsets pushed `[10, 20]` from high scale index
(highest detail, the entry 10) to low (the entry 20).  After the
writer's reversal the array written is `[20, 10]`: position 0 holds the
**lowest**-detail entry 20, not the highest-detail entry 10 as the
claim states. -/
theorem C8_counterexample :
    FeatureBuilder2.Serialize
        ⟨[1], 0, [], false, true, false, ⟨0, 0⟩, [], [], RectD.emptyRect⟩
        ⟨[], [], 3, 0, 0, [10, 20], []⟩ 0
      = FeatureBuilder1.SerializeBase
          ⟨[1], 0, [], false, true, false, ⟨0, 0⟩, [], [], RectD.emptyRect⟩
          (uint64ToPointU 0) ++ [48] ++ writeVarUintArray [20, 10] ∧
    (List.reverse [10, 20]).headD 0 = 20 ∧ (20 : Nat) ≠ 10 := by
  refine ⟨?_, by decide, by decide⟩
  unfold FeatureBuilder2.Serialize
  simp [BitSinkState.write, BitSinkState.finishSink, BitSinkState.init,
        List.append_assoc]

/-- C8 (amended): for a Stage-2 line feature with outer geometry
(inline point count zero) and a full mask over `k` pushed offsets, the
writer writes the **reversed** offsets array after the bit header, and
the reader's `ReadOffsets` reconstructs exactly that reversed array —
so after reversal `offsets[i]` holds the entry for scale index `i`:
`offsets[0]` corresponds to the **lowest**-detail scale (the
last-pushed entry) and `offsets[k-1]` to the **highest**-detail scale
(the first-pushed entry), converting the simplifier's
highest-to-lowest push order into the ascending order the reader
expects. -/
theorem C8_offset_reversal (b : FeatureBuilder1) (data : BuffersHolder) (base : Nat)
    (rest : List Nat)
    (hlin : b.m_bLinear = true) (harea : b.m_bArea = false)
    (hinner : data.m_innerPts = []) (h0 : data.m_ptsOffset ≠ [])
    (hmask : data.m_ptsMask = 2 ^ data.m_ptsOffset.length - 1) :
    FeatureBuilder2.Serialize b data base
      = b.SerializeBase (uint64ToPointU base) ++ [data.m_ptsMask <<< 4] ++
        writeVarUintArray data.m_ptsOffset.reverse ∧
    readOffsets data.m_ptsMask (writeVarUintArray data.m_ptsOffset.reverse ++ rest)
      = some (data.m_ptsOffset.reverse ++
                List.replicate (4 - data.m_ptsOffset.length) kInvalidOffset, rest) ∧
    (∀ i, i < data.m_ptsOffset.length →
      (data.m_ptsOffset.reverse ++
        List.replicate (4 - data.m_ptsOffset.length) kInvalidOffset).getD i 0
        = data.m_ptsOffset.getD (data.m_ptsOffset.length - 1 - i) 0) := by
  refine ⟨?_, ?_, ?_⟩
  · unfold FeatureBuilder2.Serialize
    rw [hinner, hlin, harea]
    simp [BitSinkState.write, BitSinkState.finishSink, BitSinkState.init,
          List.append_assoc]
  · rw [hmask]
    rw [show data.m_ptsOffset.length = data.m_ptsOffset.reverse.length by simp]
    exact readOffsets_writeVarUintArray data.m_ptsOffset.reverse rest
      (by simpa using h0)
  · intro i hi
    have hi' : i < data.m_ptsOffset.reverse.length := by simpa using hi
    rw [List.getD_eq_getElem?_getD, List.getD_eq_getElem?_getD,
        List.getElem?_append, if_pos hi', List.getElem?_reverse hi]

/-- Witness for `C8_offset_reversal`. -/
theorem C8_offset_reversal_witness :
    FeatureBuilder2.Serialize
        ⟨[1], 0, [], false, true, false, ⟨0, 0⟩, [], [], RectD.emptyRect⟩
        ⟨[], [], 3, 0, 0, [10, 20], []⟩ 0
      = FeatureBuilder1.SerializeBase
          ⟨[1], 0, [], false, true, false, ⟨0, 0⟩, [], [], RectD.emptyRect⟩
          (uint64ToPointU 0) ++ [(3 : Nat) <<< 4] ++
        writeVarUintArray (List.reverse [10, 20]) ∧
    readOffsets 3 (writeVarUintArray (List.reverse [10, 20]) ++ [9])
      = some (List.reverse [10, 20] ++ List.replicate 2 kInvalidOffset, [9]) := by
  have h := C8_offset_reversal
    ⟨[1], 0, [], false, true, false, ⟨0, 0⟩, [], [], RectD.emptyRect⟩
    ⟨[], [], 3, 0, 0, [10, 20], []⟩ 0 [9] rfl rfl rfl (by decide) (by decide)
  exact ⟨h.1, h.2.1⟩

/-! ## Stage-1 round trip: byte-level inverses -/

theorem readVarUints_append (ts : List Nat) (rest : List Nat) :
    readVarUints ts.length ((ts.map writeVarUint).flatten ++ rest) = some (ts, rest) := by
  induction ts generalizing rest with
  | nil => simp [readVarUints]
  | cons t ts ih =>
    simp only [List.map_cons, List.flatten_cons, List.length_cons, List.append_assoc,
      readVarUints, readVarUint_writeVarUint, ih rest, Option.map_some']

theorem loadDeltas_saveDeltas (us : List Nat) :
    ∀ (prev : Nat) (rest : List Nat),
      loadDeltas prev us.length (saveDeltas prev us ++ rest) = some (us, rest) := by
  induction us with
  | nil => intro prev rest; simp [saveDeltas, loadDeltas]
  | cons u us ih =>
    intro prev rest
    have htn : ((prev : Int) + ((u : Int) - (prev : Int))).toNat = u := by omega
    simp only [saveDeltas, List.length_cons, List.append_assoc, loadDeltas,
      readVarInt_writeVarInt, htn, ih u rest, Option.map_some']

theorem loadOuterPathU_save (us : List Nat) (rest : List Nat) :
    loadOuterPathU (saveOuterPathU us ++ rest) = some (us, rest) := by
  cases us with
  | nil =>
    simp only [saveOuterPathU, List.length_nil, List.append_nil]
    rw [loadOuterPathU, readVarUint_writeVarUint]
  | cons u0 us =>
    simp only [saveOuterPathU, List.length_cons, List.append_assoc, loadOuterPathU,
      readVarUint_writeVarUint, loadDeltas_saveDeltas us u0 rest, Option.map_some']

theorem qRound_x (p : PointD) : (qRound p).x = dequantAxis (quantAxis p.x) := rfl

theorem qRound_y (p : PointD) : (qRound p).y = dequantAxis (quantAxis p.y) := rfl

theorem loadOuterPath_save (pts : List PointD) (rest : List Nat) :
    loadOuterPath (saveOuterPath pts ++ rest) = some (pts.map qRound, rest) := by
  unfold loadOuterPath saveOuterPath
  rw [loadOuterPathU_save]
  simp only [Option.map_some', List.map_map, Option.some.injEq, Prod.mk.injEq, and_true]
  apply List.map_congr_left
  intro p _
  simp only [Function.comp_apply, pointUToUint64, uint64ToPointU, PointD2PointU,
    deinterleave_interleave, qRound, PointU2PointD]

theorem loadOuterPath_save_exact (pts : List PointD) :
    loadOuterPath (saveOuterPath pts) = some (pts.map qRound, []) := by
  have h := loadOuterPath_save pts []
  rwa [List.append_nil] at h

theorem readHoles_append (hs : List (List PointD)) (rest : List Nat) :
    readHoles hs.length ((hs.map saveOuterPath).flatten ++ rest) =
      some (hs.map (List.map qRound), rest) := by
  induction hs generalizing rest with
  | nil => simp [readHoles]
  | cons h hs ih =>
    simp only [List.map_cons, List.flatten_cons, List.length_cons, List.append_assoc,
      readHoles, loadOuterPath_save, ih rest, Option.map_some']

theorem readHoles_exact (hs : List (List PointD)) :
    readHoles hs.length ((hs.map saveOuterPath).flatten) =
      some (hs.map (List.map qRound), []) := by
  have h := readHoles_append hs []
  rwa [List.append_nil] at h

theorem readVarUint_exact (n : Nat) : readVarUint (writeVarUint n) = some (n, []) := by
  have h := readVarUint_writeVarUint n []
  rwa [List.append_nil] at h

theorem readVarInt_exact (i : Int) : readVarInt (writeVarInt i) = some (i, []) := by
  have h := readVarInt_writeVarInt i []
  rwa [List.append_nil] at h

/-! ## Quantization error -/

theorem quant_error (B c x : ℚ) (hc : 0 < c) (hBc : 2 ^ 32 * c = 2 * B)
    (h1 : -B ≤ x) (h2 : x ≤ B) :
    |((min (Int.toNat ⌊(x + B) / c⌋) (2 ^ 32 - 1) : ℕ) : ℚ) * c - B + c / 2 - x| ≤ c / 2 := by
  have h0 : (0 : ℚ) ≤ (x + B) / c := div_nonneg (by linarith) hc.le
  have hfl0 : 0 ≤ ⌊(x + B) / c⌋ := Int.floor_nonneg.mpr h0
  have hle : ((⌊(x + B) / c⌋ : ℤ) : ℚ) ≤ (x + B) / c := Int.floor_le _
  have hlt : (x + B) / c < ((⌊(x + B) / c⌋ : ℤ) : ℚ) + 1 := Int.lt_floor_add_one _
  have hle' : ((⌊(x + B) / c⌋ : ℤ) : ℚ) * c ≤ x + B := (le_div_iff hc).mp hle
  have hlt' : x + B < (((⌊(x + B) / c⌋ : ℤ) : ℚ) + 1) * c := (div_lt_iff hc).mp hlt
  rw [add_mul, one_mul] at hlt'
  by_cases hbig : ⌊(x + B) / c⌋ < 2 ^ 32
  · have hmin : min (Int.toNat ⌊(x + B) / c⌋) (2 ^ 32 - 1) = (⌊(x + B) / c⌋).toNat := by
      omega
    have hcast : (((⌊(x + B) / c⌋).toNat : ℕ) : ℚ) = ((⌊(x + B) / c⌋ : ℤ) : ℚ) := by
      exact_mod_cast Int.toNat_of_nonneg hfl0
    rw [hmin, hcast, abs_le]
    constructor <;> linarith
  · have h32 : (⌊(x + B) / c⌋ : ℤ) ≤ 2 ^ 32 := by
      have hq : ((⌊(x + B) / c⌋ : ℤ) : ℚ) ≤ 2 ^ 32 := by
        calc ((⌊(x + B) / c⌋ : ℤ) : ℚ) ≤ (x + B) / c := hle
        _ ≤ 2 ^ 32 := by rw [div_le_iff hc]; nlinarith
      exact_mod_cast hq
    have hfl : ⌊(x + B) / c⌋ = 2 ^ 32 := by omega
    have hxB : x = B := by
      have hge : ((2 : ℚ) ^ 32) ≤ (x + B) / c := by
        rw [hfl] at hle; exact_mod_cast hle
      have hge' : 2 ^ 32 * c ≤ x + B := (le_div_iff hc).mp hge
      linarith
    have hmin : min (Int.toNat ⌊(x + B) / c⌋) (2 ^ 32 - 1) = 2 ^ 32 - 1 := by
      rw [hfl]; omega
    have hcast : (((2 ^ 32 - 1 : ℕ)) : ℚ) = 2 ^ 32 - 1 := by norm_num
    have hexp : ((2 : ℚ) ^ 32 - 1) * c = 2 * B - c := by
      rw [sub_mul, hBc, one_mul]
    rw [hmin, hcast, hexp, hxB, abs_le]
    constructor <;> linarith

theorem dequant_quant (x : ℚ) (h1 : -MercatorBounds.bound ≤ x)
    (h2 : x ≤ MercatorBounds.bound) :
    |dequantAxis (quantAxis x) - x| ≤ MercatorBounds.cellSize / 2 := by
  have hc : (0 : ℚ) < MercatorBounds.cellSize := by
    norm_num [MercatorBounds.cellSize, MercatorBounds.bound]
  have hBc : (2 : ℚ) ^ 32 * MercatorBounds.cellSize = 2 * MercatorBounds.bound := by
    norm_num [MercatorBounds.cellSize, MercatorBounds.bound]
  exact quant_error MercatorBounds.bound MercatorBounds.cellSize x hc hBc h1 h2

theorem quantAxis_lt (x : ℚ) : quantAxis x < 2 ^ 32 := by
  unfold quantAxis
  omega

theorem decode_encode_origin (p : PointD) :
    decodeDelta (encodeDelta (PointD2PointU p) ⟨0, 0⟩) ⟨0, 0⟩ = PointD2PointU p := by
  have hx : quantAxis p.x < 2 ^ 32 := quantAxis_lt p.x
  have hy : quantAxis p.y < 2 ^ 32 := quantAxis_lt p.y
  have e1 : (quantAxis p.x + 2 ^ 32 - 0 % 2 ^ 32) % 2 ^ 32 = quantAxis p.x := by omega
  have e2 : (quantAxis p.y + 2 ^ 32 - 0 % 2 ^ 32) % 2 ^ 32 = quantAxis p.y := by omega
  have f1 : (quantAxis p.x + 0 % 2 ^ 32) % 2 ^ 32 = quantAxis p.x := by omega
  have f2 : (quantAxis p.y + 0 % 2 ^ 32) % 2 ^ 32 = quantAxis p.y := by omega
  simp only [decodeDelta, encodeDelta, PointD2PointU, e1, e2, deinterleave_interleave, f1, f2]

theorem PointU2PointD_round (p : PointD) : PointU2PointD (PointD2PointU p) = qRound p := rfl

/-! ## Header-byte arithmetic -/

theorem getHeader_eq_hdrVal (b : FeatureBuilder1) (hlen : b.m_Types.length < 8) :
    b.GetHeader = hdrVal b.m_Types.length (!b.m_Name.isEmpty) (decide (b.m_Layer ≠ 0))
      b.m_bPoint b.m_bLinear b.m_bArea := by
  unfold FeatureBuilder1.GetHeader hdrVal HEADER_HAS_NAME HEADER_HAS_LAYER HEADER_HAS_POINT
    HEADER_IS_LINE HEADER_IS_AREA
  dsimp only
  simp only [decide_eq_true_eq]
  revert hlen
  generalize b.m_Types.length = len
  intro hlen
  split_ifs <;> (interval_cases len <;> rfl)

theorem hdrVal_masks : ∀ len < 8, ∀ n l p li a : Bool,
    hdrVal len n l p li a &&& 7 = len ∧
    (hdrVal len n l p li a &&& HEADER_HAS_NAME ≠ 0 ↔ n = true) ∧
    (hdrVal len n l p li a &&& HEADER_HAS_LAYER ≠ 0 ↔ l = true) ∧
    (hdrVal len n l p li a &&& HEADER_HAS_POINT ≠ 0 ↔ p = true) ∧
    (hdrVal len n l p li a &&& HEADER_IS_LINE ≠ 0 ↔ li = true) ∧
    (hdrVal len n l p li a &&& HEADER_IS_AREA ≠ 0 ↔ a = true) := by
  decide

/-! ## Epsilon-closeness helpers -/

theorem isEqD_of_close {a b : ℚ} (h : |a - b| ≤ MercatorBounds.cellSize / 2) :
    isEqD a b = true := by
  have hc : (0 : ℚ) < MercatorBounds.cellSize := by
    norm_num [MercatorBounds.cellSize, MercatorBounds.bound]
  have hlt : |a - b| < MercatorBounds.GetCellID2PointAbsEpsilon := by
    unfold MercatorBounds.GetCellID2PointAbsEpsilon
    linarith
  simpa [isEqD] using hlt

theorem isEqPoint_qRound (p : PointD) (hp : inBoundsPt p = true) :
    isEqPoint p (qRound p) = true := by
  simp only [inBoundsPt, inBoundsQ, Bool.and_eq_true, decide_eq_true_eq] at hp
  obtain ⟨⟨hx1, hx2⟩, hy1, hy2⟩ := hp
  have hx := dequant_quant p.x hx1 hx2
  have hy := dequant_quant p.y hy1 hy2
  unfold isEqPoint
  rw [qRound_x, qRound_y, Bool.and_eq_true]
  constructor
  · exact isEqD_of_close (by rw [abs_sub_comm]; exact hx)
  · exact isEqD_of_close (by rw [abs_sub_comm]; exact hy)

theorem isEqPoints_map_qRound (pts : List PointD) (h : pts.all inBoundsPt = true) :
    isEqPoints pts (pts.map qRound) = true := by
  induction pts with
  | nil => rfl
  | cons p ps ih =>
    simp only [List.all_cons, Bool.and_eq_true] at h
    have h1 := isEqPoint_qRound p h.1
    have h2 := ih h.2
    unfold isEqPoints at h2 ⊢
    simp only [List.map_cons, List.length_cons, List.zip_cons_cons, List.all_cons,
      Bool.and_eq_true, beq_iff_eq, List.length_map] at h2 ⊢
    exact ⟨trivial, h1, h2.2⟩

theorem abs_min_sub_min {a a' b b' d : ℚ} (ha : |a - a'| ≤ d) (hb : |b - b'| ≤ d) :
    |min a b - min a' b'| ≤ d := by
  rw [abs_le] at ha hb ⊢
  obtain ⟨ha1, ha2⟩ := ha
  obtain ⟨hb1, hb2⟩ := hb
  constructor <;> (simp only [min_def]; split_ifs <;> linarith)

theorem abs_max_sub_max {a a' b b' d : ℚ} (ha : |a - a'| ≤ d) (hb : |b - b'| ≤ d) :
    |max a b - max a' b'| ≤ d := by
  rw [abs_le] at ha hb ⊢
  obtain ⟨ha1, ha2⟩ := ha
  obtain ⟨hb1, hb2⟩ := hb
  constructor <;> (simp only [max_def]; split_ifs <;> linarith)

theorem rectClose_refl (d : ℚ) (hd : 0 ≤ d) (r : RectD) : rectClose d r r := by
  refine ⟨?_, ?_, ?_, ?_⟩ <;> simp [sub_self, abs_zero, hd]

theorem rectClose_add {d : ℚ} {r s : RectD} {p q : PointD}
    (h : rectClose d r s) (hx : |p.x - q.x| ≤ d) (hy : |p.y - q.y| ≤ d) :
    rectClose d (r.add p) (s.add q) := by
  obtain ⟨h1, h2, h3, h4⟩ := h
  exact ⟨abs_min_sub_min h1 hx, abs_min_sub_min h2 hy,
         abs_max_sub_max h3 hx, abs_max_sub_max h4 hy⟩

theorem rectClose_calcRect {d : ℚ} :
    ∀ (pts : List PointD),
      (∀ p ∈ pts, |p.x - (qRound p).x| ≤ d ∧ |p.y - (qRound p).y| ≤ d) →
      ∀ r s, rectClose d r s →
        rectClose d (calcRect pts r) (calcRect (pts.map qRound) s) := by
  intro pts
  induction pts with
  | nil =>
    intro _ r s h
    simpa [calcRect] using h
  | cons p ps ih =>
    intro hb r s h
    have hp := hb p (by simp)
    have hps : ∀ q ∈ ps, |q.x - (qRound q).x| ≤ d ∧ |q.y - (qRound q).y| ≤ d :=
      fun q hq => hb q (by simp [hq])
    simp only [calcRect, List.map_cons, List.foldl_cons]
    exact ih hps (r.add p) (s.add (qRound p)) (rectClose_add h hp.1 hp.2)

theorem isEqRect_of_close {r s : RectD}
    (h : rectClose (MercatorBounds.cellSize / 2) r s) : isEqRect r s = true := by
  obtain ⟨h1, h2, h3, h4⟩ := h
  unfold isEqRect
  simp only [Bool.and_eq_true]
  exact ⟨⟨⟨isEqD_of_close h1, isEqD_of_close h2⟩, isEqD_of_close h3⟩, isEqD_of_close h4⟩

/-! ## The Stage-1 deserializer inverts the serializer -/

theorem readLayerStage_spec {h : Nat} {l : Int}
    (hiff : (h &&& HEADER_HAS_LAYER ≠ 0) ↔ l ≠ 0) (rest : List Nat) :
    FeatureBuilder1.readLayerStage h ((if l ≠ 0 then writeVarInt l else []) ++ rest) =
      some (l, rest) := by
  unfold FeatureBuilder1.readLayerStage
  by_cases hl : l = 0
  · simp [hl, hiff]
  · simp [hl, hiff, readVarInt_writeVarInt]

theorem readNameStage_spec {h : Nat} {name : List Nat}
    (hiff : (h &&& HEADER_HAS_NAME ≠ 0) ↔ name.isEmpty = false) (rest : List Nat) :
    FeatureBuilder1.readNameStage h
      ((if !name.isEmpty then writeVarUint (name.length - 1) ++ name else []) ++ rest) =
      some (name, rest) := by
  unfold FeatureBuilder1.readNameStage
  cases name with
  | nil =>
    simp only [List.isEmpty_nil] at hiff
    simp [hiff]
  | cons a t =>
    simp only [List.isEmpty_cons] at hiff
    simp [hiff, List.append_assoc, readVarUint_writeVarUint, List.take_left',
      List.drop_left']

theorem readCenterStage_spec {h : Nat} {pt : PointD} {pflag : Bool}
    (hiff : (h &&& HEADER_HAS_POINT ≠ 0) ↔ pflag = true) (rest : List Nat) :
    FeatureBuilder1.readCenterStage h
      ((if pflag then writeVarUint (encodeDelta (PointD2PointU pt) ⟨0, 0⟩) else []) ++
        rest) =
      some ((if pflag then some (qRound pt) else none), rest) := by
  unfold FeatureBuilder1.readCenterStage
  cases pflag
  · simp [hiff]
  · simp [hiff, readVarUint_writeVarUint, decode_encode_origin, PointU2PointD_round]

theorem readGeomStage_spec {h : Nat} {lflag aflag : Bool} {pts : List PointD}
    (hiffLi : (h &&& HEADER_IS_LINE ≠ 0) ↔ lflag = true)
    (hiffA : (h &&& HEADER_IS_AREA ≠ 0) ↔ aflag = true) (rest : List Nat) :
    FeatureBuilder1.readGeomStage h
      ((if lflag || aflag then saveOuterPath pts else []) ++ rest) =
      some ((if lflag || aflag then pts.map qRound else []), rest) := by
  unfold FeatureBuilder1.readGeomStage
  cases lflag <;> cases aflag <;> simp [hiffLi, hiffA, loadOuterPath_save]

theorem readHolesStage_spec {h : Nat} {aflag : Bool} {hs : List (List PointD)}
    (hiffA : (h &&& HEADER_IS_AREA ≠ 0) ↔ aflag = true) (rest : List Nat) :
    FeatureBuilder1.readHolesStage h
      ((if aflag then writeVarUint hs.length ++ (hs.map saveOuterPath).flatten
        else []) ++ rest) =
      some ((if aflag then hs.map (List.map qRound) else []), rest) := by
  unfold FeatureBuilder1.readHolesStage
  cases aflag
  · simp [hiffA]
  · simp [hiffA, List.append_assoc, readVarUint_writeVarUint, readHoles_append]

theorem deserialize_serialize (b : FeatureBuilder1) (hvalid : b.CheckValid = true) :
    FeatureBuilder1.Deserialize b.Serialize = some
      { m_Types := b.m_Types
        m_Layer := b.m_Layer
        m_Name := b.m_Name
        m_bPoint := b.m_bPoint
        m_bLinear := b.m_bLinear
        m_bArea := b.m_bArea
        m_Center := if b.m_bPoint then qRound b.m_Center else default
        m_Geometry := if b.m_bLinear || b.m_bArea then b.m_Geometry.map qRound else []
        m_Holes := if b.m_bArea then b.m_Holes.map (List.map qRound) else []
        m_LimitRect :=
          calcRect (if b.m_bLinear || b.m_bArea then b.m_Geometry.map qRound else [])
            (if b.m_bPoint then RectD.emptyRect.add (qRound b.m_Center)
             else RectD.emptyRect) } := by
  have hv := hvalid
  unfold FeatureBuilder1.CheckValid at hv
  simp only [maxTypesCount, Bool.and_eq_true, Bool.or_eq_true, Bool.not_eq_true',
    decide_eq_true_eq, List.all_eq_true] at hv
  obtain ⟨⟨⟨⟨⟨⟨⟨⟨htE, hlen⟩, hl1⟩, hl2⟩, hflags⟩, hg2'⟩, hg3'⟩, hhA'⟩, hh3⟩ := hv
  have hlen8 : b.m_Types.length < 8 := by omega
  have hg2 : b.m_bLinear = true → 2 ≤ b.m_Geometry.length := by
    intro h
    rcases hg2' with h' | h'
    · rw [h] at h'; exact absurd h' (by simp)
    · exact h'
  have hg3 : b.m_bArea = true → 3 ≤ b.m_Geometry.length := by
    intro h
    rcases hg3' with h' | h'
    · rw [h] at h'; exact absurd h' (by simp)
    · exact h'
  have hnl1 : ¬(b.m_Layer < -10) := by omega
  have hnl2 : ¬((10 : Int) < b.m_Layer) := by omega
  have hall : b.m_Holes.all (fun h => decide (3 ≤ h.length)) = true := by
    rw [List.all_eq_true]
    intro x hx
    simpa using hh3 x hx
  have hall2 :
      (b.m_Holes.map (List.map qRound)).all (fun h => decide (3 ≤ h.length)) = true := by
    rw [List.all_eq_true]
    intro x hx
    rcases List.mem_map.mp hx with ⟨y, hy, rfl⟩
    simpa using hh3 y hy
  have hhdr := getHeader_eq_hdrVal b hlen8
  obtain ⟨hm7, hmN, hmL, hmP, hmLi, hmA⟩ :=
    hdrVal_masks b.m_Types.length hlen8 (!b.m_Name.isEmpty) (decide (b.m_Layer ≠ 0))
      b.m_bPoint b.m_bLinear b.m_bArea
  have hand7 : b.GetHeader &&& 7 = b.m_Types.length := by rw [hhdr]; exact hm7
  have hiffN : (b.GetHeader &&& HEADER_HAS_NAME ≠ 0) ↔ b.m_Name.isEmpty = false := by
    rw [hhdr]; simpa using hmN
  have hiffL : (b.GetHeader &&& HEADER_HAS_LAYER ≠ 0) ↔ b.m_Layer ≠ 0 := by
    rw [hhdr]; simpa using hmL
  have hiffP : (b.GetHeader &&& HEADER_HAS_POINT ≠ 0) ↔ b.m_bPoint = true := by
    rw [hhdr]; exact hmP
  have hiffLi : (b.GetHeader &&& HEADER_IS_LINE ≠ 0) ↔ b.m_bLinear = true := by
    rw [hhdr]; exact hmLi
  have hiffA : (b.GetHeader &&& HEADER_IS_AREA ≠ 0) ↔ b.m_bArea = true := by
    rw [hhdr]; exact hmA
  have hser : b.Serialize = b.GetHeader ::
      ((b.m_Types.map writeVarUint).flatten ++
       ((if b.m_Layer ≠ 0 then writeVarInt b.m_Layer else []) ++
        ((if !b.m_Name.isEmpty then writeVarUint (b.m_Name.length - 1) ++ b.m_Name
          else []) ++
         ((if b.m_bPoint then
             writeVarUint (encodeDelta (PointD2PointU b.m_Center) ⟨0, 0⟩) else []) ++
          ((if b.m_bLinear || b.m_bArea then saveOuterPath b.m_Geometry else []) ++
           ((if b.m_bArea then
               writeVarUint b.m_Holes.length ++ (b.m_Holes.map saveOuterPath).flatten
             else []) ++ ([] : List Nat))))))) := by
    simp [FeatureBuilder1.Serialize, FeatureBuilder1.SerializeBase, List.append_assoc]
  rw [hser]
  simp only [FeatureBuilder1.Deserialize, hand7, readVarUints_append,
    readLayerStage_spec hiffL, readNameStage_spec hiffN, readCenterStage_spec hiffP,
    readGeomStage_spec hiffLi hiffA, readHolesStage_spec hiffA, hiffP, hiffLi, hiffA]
  clear hser hhdr hm7 hmN hmL hmP hmLi hmA hand7 hiffN hiffL hiffP hiffLi hiffA
  clear hvalid hg2' hg3' hhA' hlen8 hh3
  cases hP : b.m_bPoint <;>
    cases hLi : b.m_bLinear <;>
      cases hA : b.m_bArea <;>
        first
        | (exfalso
           simp only [hP, hLi, hA] at hflags
           rcases hflags with (hf | hf) | hf <;> exact Bool.noConfusion hf)
        | simp [hP, hLi, hA, FeatureBuilder1.AddLayer, FeatureBuilder1.AddName,
            FeatureBuilder1.SetCenter, FeatureBuilder1.SetLinear,
            FeatureBuilder1.SetAreaAddHoles, hnl1, hnl2,
            FeatureBuilder1.CheckValid, maxTypesCount, htE, hlen, hl1, hl2,
            hg2, hg3, hall, hall2]

theorem qRound_close (p : PointD) (hp : inBoundsPt p = true) :
    |p.x - (qRound p).x| ≤ MercatorBounds.cellSize / 2 ∧
    |p.y - (qRound p).y| ≤ MercatorBounds.cellSize / 2 := by
  simp only [inBoundsPt, inBoundsQ, Bool.and_eq_true, decide_eq_true_eq] at hp
  obtain ⟨⟨hx1, hx2⟩, hy1, hy2⟩ := hp
  constructor
  · rw [qRound_x, abs_sub_comm]
    exact dequant_quant p.x hx1 hx2
  · rw [qRound_y, abs_sub_comm]
    exact dequant_quant p.y hy1 hy2

theorem holes_zip_all (hs : List (List PointD))
    (hb : ∀ h ∈ hs, h.all inBoundsPt = true) :
    (List.zip hs (hs.map (List.map qRound))).all
      (fun hh => isEqPoints hh.1 hh.2) = true := by
  induction hs with
  | nil => rfl
  | cons h t ih =>
    simp only [List.map_cons, List.zip_cons_cons, List.all_cons, Bool.and_eq_true]
    exact ⟨isEqPoints_map_qRound h (hb h (by simp)),
           ih (fun x hx => hb x (by simp [hx]))⟩

/-- C1: for every builder that passes validation *and* satisfies the
reachable-builder side conditions — the geometry container is used only
together with the line or area flag, all coordinates lie in the Mercator
square, and the limit rectangle is the one accumulated by the mutators —
serializing and deserializing yields a builder equal to the original
under the epsilon-equality `operator==`.  (The validation check alone is
not sufficient; see the counterexample.) -/
theorem C1_stage1_roundtrip (b : FeatureBuilder1)
    (hvalid : b.CheckValid = true)
    (hgeom : b.m_bLinear = true ∨ b.m_bArea = true ∨ b.m_Geometry = [])
    (hbounds : inBounds b = true)
    (hrect : b.m_LimitRect = rectOf b) :
    ∃ b', FeatureBuilder1.Deserialize b.Serialize = some b' ∧
      FeatureBuilder1.beqFB b b' = true := by
  refine ⟨_, deserialize_serialize b hvalid, ?_⟩
  have hcell : (0 : ℚ) < MercatorBounds.cellSize := by
    norm_num [MercatorBounds.cellSize, MercatorBounds.bound]
  have hv := hvalid
  unfold FeatureBuilder1.CheckValid at hv
  simp only [maxTypesCount, Bool.and_eq_true, Bool.or_eq_true, Bool.not_eq_true',
    decide_eq_true_eq, List.all_eq_true] at hv
  obtain ⟨⟨⟨⟨⟨⟨⟨⟨htE, hlen⟩, hl1⟩, hl2⟩, hflags⟩, hg2'⟩, hg3'⟩, hhA'⟩, hh3⟩ := hv
  have hhE : b.m_bArea = false → b.m_Holes = [] := by
    intro h
    rcases hhA' with h' | h'
    · exact List.isEmpty_iff.mp h'
    · rw [h] at h'; exact absurd h' (by simp)
  have hb := hbounds
  unfold inBounds at hb
  simp only [Bool.and_eq_true] at hb
  obtain ⟨⟨hbP, hbG⟩, hbH⟩ := hb
  have hbC : b.m_bPoint = true → inBoundsPt b.m_Center = true := by
    intro h
    rw [h] at hbP
    simpa using hbP
  have hbG2 : ∀ p ∈ b.m_Geometry, inBoundsPt p = true := List.all_eq_true.mp hbG
  have hbHole : ∀ h ∈ b.m_Holes, h.all inBoundsPt = true := by
    have := List.all_eq_true.mp hbH
    intro h hh
    simpa using this h hh
  have hbase : rectClose (MercatorBounds.cellSize / 2)
      (if b.m_bPoint then RectD.emptyRect.add b.m_Center else RectD.emptyRect)
      (if b.m_bPoint then RectD.emptyRect.add (qRound b.m_Center)
       else RectD.emptyRect) := by
    cases hp : b.m_bPoint
    · exact rectClose_refl _ (by linarith) _
    · have hc := qRound_close b.m_Center (hbC hp)
      exact rectClose_add (rectClose_refl _ (by linarith) _) hc.1 hc.2
  have hge : (b.m_bLinear || b.m_bArea) = false → b.m_Geometry = [] := by
    intro hga
    rcases hgeom with h | h | h
    · rw [h] at hga; exact absurd hga (by simp)
    · rw [h] at hga; exact absurd hga (by simp)
    · exact h
  have hclose : rectClose (MercatorBounds.cellSize / 2)
      (calcRect b.m_Geometry
        (if b.m_bPoint then RectD.emptyRect.add b.m_Center else RectD.emptyRect))
      (calcRect (if b.m_bLinear || b.m_bArea then b.m_Geometry.map qRound else [])
        (if b.m_bPoint then RectD.emptyRect.add (qRound b.m_Center)
         else RectD.emptyRect)) := by
    cases hga : (b.m_bLinear || b.m_bArea)
    · rw [hge hga]
      simpa [calcRect] using hbase
    · simp only [hga]
      exact rectClose_calcRect b.m_Geometry
        (fun p hp => qRound_close p (hbG2 p hp)) _ _ hbase
  have hcenter : (!b.m_bPoint ||
      isEqPoint b.m_Center (if b.m_bPoint then qRound b.m_Center else default)) = true := by
    cases hp : b.m_bPoint
    · simp [hp]
    · simp only [hp]
      simpa using isEqPoint_qRound _ (hbC hp)
  have hrectC : isEqRect b.m_LimitRect
      (calcRect (if b.m_bLinear || b.m_bArea then b.m_Geometry.map qRound else [])
        (if b.m_bPoint then RectD.emptyRect.add (qRound b.m_Center)
         else RectD.emptyRect)) = true := by
    rw [hrect]
    unfold rectOf
    exact isEqRect_of_close hclose
  have hgeomC : isEqPoints b.m_Geometry
      (if b.m_bLinear || b.m_bArea then b.m_Geometry.map qRound else []) = true := by
    cases hga : (b.m_bLinear || b.m_bArea)
    · rw [hge hga]
      simp [hga, isEqPoints]
    · simp only [hga]
      simpa using isEqPoints_map_qRound _ hbG
  have hlenC : b.m_Holes.length =
      (if b.m_bArea then b.m_Holes.map (List.map qRound) else []).length := by
    cases hA : b.m_bArea
    · simp [hA, hhE hA]
    · simp [hA]
  have hzipC : (List.zip b.m_Holes
      (if b.m_bArea then b.m_Holes.map (List.map qRound) else [])).all
      (fun hh => isEqPoints hh.1 hh.2) = true := by
    cases hA : b.m_bArea
    · simp [hA, hhE hA]
    · simpa [hA] using holes_zip_all b.m_Holes hbHole
  simp only [Bool.or_eq_true] at hrectC hgeomC
  unfold FeatureBuilder1.beqFB
  simp [hcenter, hrectC, hgeomC, hlenC, hzipC]

/-- C1 counterexample: a builder that passes `CheckValid` (a point
feature carrying a point in its geometry container), has in-bounds
coordinates and the mutator-accumulated limit rectangle, yet fails the
round trip: the serializer drops the geometry of a non-line non-area
feature, so the deserialized builder compares unequal. -/
theorem C1_counterexample :
    FeatureBuilder1.CheckValid
        ⟨[1], 0, [], true, false, false, ⟨0, 0⟩, [⟨0, 0⟩], [],
          calcRect [⟨0, 0⟩] (RectD.emptyRect.add ⟨0, 0⟩)⟩ = true ∧
    inBounds
        ⟨[1], 0, [], true, false, false, ⟨0, 0⟩, [⟨0, 0⟩], [],
          calcRect [⟨0, 0⟩] (RectD.emptyRect.add ⟨0, 0⟩)⟩ = true ∧
    (⟨[1], 0, [], true, false, false, ⟨0, 0⟩, [⟨0, 0⟩], [],
        calcRect [⟨0, 0⟩] (RectD.emptyRect.add ⟨0, 0⟩)⟩ :
      FeatureBuilder1).m_LimitRect =
      rectOf ⟨[1], 0, [], true, false, false, ⟨0, 0⟩, [⟨0, 0⟩], [],
        calcRect [⟨0, 0⟩] (RectD.emptyRect.add ⟨0, 0⟩)⟩ ∧
    ∃ b', FeatureBuilder1.Deserialize
        (FeatureBuilder1.Serialize
          ⟨[1], 0, [], true, false, false, ⟨0, 0⟩, [⟨0, 0⟩], [],
            calcRect [⟨0, 0⟩] (RectD.emptyRect.add ⟨0, 0⟩)⟩) = some b' ∧
      FeatureBuilder1.beqFB
        ⟨[1], 0, [], true, false, false, ⟨0, 0⟩, [⟨0, 0⟩], [],
          calcRect [⟨0, 0⟩] (RectD.emptyRect.add ⟨0, 0⟩)⟩ b' = false := by
  refine ⟨by decide, by decide, rfl, ?_⟩
  have hd := deserialize_serialize
    ⟨[1], 0, [], true, false, false, ⟨0, 0⟩, [⟨0, 0⟩], [],
      calcRect [⟨0, 0⟩] (RectD.emptyRect.add ⟨0, 0⟩)⟩ (by decide)
  refine ⟨_, hd, ?_⟩
  unfold FeatureBuilder1.beqFB
  simp [isEqPoints]

/-- C1 witness: the round-trip theorem applied to a concrete valid line
feature. -/
theorem C1_stage1_roundtrip_witness :
    ∃ b', FeatureBuilder1.Deserialize
        (FeatureBuilder1.Serialize
          ⟨[1], 0, [], false, true, false, ⟨0, 0⟩, [⟨0, 0⟩, ⟨1, 1⟩], [],
            calcRect [⟨0, 0⟩, ⟨1, 1⟩] RectD.emptyRect⟩) = some b' ∧
      FeatureBuilder1.beqFB
        ⟨[1], 0, [], false, true, false, ⟨0, 0⟩, [⟨0, 0⟩, ⟨1, 1⟩], [],
          calcRect [⟨0, 0⟩, ⟨1, 1⟩] RectD.emptyRect⟩ b' = true :=
  C1_stage1_roundtrip
    ⟨[1], 0, [], false, true, false, ⟨0, 0⟩, [⟨0, 0⟩, ⟨1, 1⟩], [],
      calcRect [⟨0, 0⟩, ⟨1, 1⟩] RectD.emptyRect⟩
    (by decide) (Or.inl rfl) (by decide) rfl

end FeatureCodec
